import Mathlib

/-
Verification of the account-ledger, data-generation, dashboard-server and
login-flow components of the auto-gpt repository (src/utils.py,
src/server.py, src/browser.py), as a shallow embedding over List Char.

Python strings are modelled as List Char; machine randomness
(random.choice, random.randint, Faker calls) is modelled by passing the
drawn values as explicit arguments, with the range constraints the Python
RNG guarantees appearing as hypotheses.  File I/O is modelled at the
line-list level: save_to_txt reads the ledger with readlines and rewrites
it with writelines, so the function is embedded as a transformation of the
list of lines.
-/

namespace AutoGpt

/-- Python string, modelled as a list of characters. -/
abbrev Str := List Char

/-- The whitespace characters stripped by Python str.strip(). -/
def pySpace (c : Char) : Bool :=
  c = ' ' || c = '\t' || c = '\n' || c = '\r' || c = '\x0b' || c = '\x0c'

/-- Left part of Python str.strip(). -/
def stripLeft (s : Str) : Str := s.dropWhile pySpace

/-- Right part of Python str.strip(). -/
def stripRight (s : Str) : Str := (s.reverse.dropWhile pySpace).reverse

/-- Python str.strip(): remove leading and trailing whitespace. -/
def pyStrip (s : Str) : Str := stripRight (stripLeft s)

/-- Index of the first occurrence of the substring sep in s, if any
(the search Python str.find / the in operator / str.split perform). -/
def subAt (sep : Str) : Str → Option Nat
  | [] => if sep.isPrefixOf [] then some 0 else none
  | c :: t => if sep.isPrefixOf (c :: t) then some 0 else (subAt sep t).map (· + 1)

/-- Python substring containment: sep in s. -/
def hasSub (sep s : Str) : Bool := (subAt sep s).isSome

/-- Python s.split(sep, maxsplit) for a non-empty separator. -/
def pySplit (sep : Str) (maxsplit : Nat) (s : Str) : List Str :=
  match maxsplit with
  | 0 => [s]
  | m + 1 =>
    match subAt sep s with
    | none => [s]
    | some i => s.take i :: pySplit sep m (s.drop (i + sep.length))

/-- Python truthiness fallback a or b on strings: b when a is empty. -/
def pyOrS (a b : Str) : Str := if a = [] then b else a

/-- Python truthiness fallback on an optional string (None or "" both falsy). -/
def pyOrOpt (a : Option Str) (b : Str) : Str :=
  match a with
  | none => b
  | some s => if s = [] then b else s

/-- Decimal digit value of a character, when it is an ASCII digit. -/
def digitVal (c : Char) : Option Nat :=
  if c.isDigit then some (c.toNat - 48) else none

/-- Calendar timestamp with second precision, as built by datetime.strptime. -/
structure PyDateTime where
  year : Nat
  month : Nat
  day : Nat
  hour : Nat
  minute : Nat
  second : Nat
deriving DecidableEq

/-- Match exactly four ASCII digits (the strptime %Y field). -/
def match4Digits : Str → Option (Nat × Str)
  | a :: b :: c :: d :: rest => do
    let va ← digitVal a
    let vb ← digitVal b
    let vc ← digitVal c
    let vd ← digitVal d
    some (va * 1000 + vb * 100 + vc * 10 + vd, rest)
  | _ => none

/-- Match the strptime %m field, regex 1[0-2]|0[1-9]|[1-9], alternatives
tried in order (greedy, as the CPython regex engine does; backtracking into
an earlier alternative is not modelled, which is exact on zero-padded input). -/
def matchMonth : Str → Option (Nat × Str)
  | a :: b :: rest =>
    if a = '1' ∧ ('0' ≤ b ∧ b ≤ '2') then some (10 + (b.toNat - 48), rest)
    else if a = '0' ∧ ('1' ≤ b ∧ b ≤ '9') then some (b.toNat - 48, rest)
    else if '1' ≤ a ∧ a ≤ '9' then some (a.toNat - 48, b :: rest)
    else none
  | [a] => if '1' ≤ a ∧ a ≤ '9' then some (a.toNat - 48, []) else none
  | [] => none

/-- Match the strptime %d field, regex 3[01]|[12]\d|0[1-9]|[1-9]. -/
def matchDay : Str → Option (Nat × Str)
  | a :: b :: rest =>
    if a = '3' ∧ ('0' ≤ b ∧ b ≤ '1') then some (30 + (b.toNat - 48), rest)
    else if ('1' ≤ a ∧ a ≤ '2') ∧ b.isDigit then some ((a.toNat - 48) * 10 + (b.toNat - 48), rest)
    else if a = '0' ∧ ('1' ≤ b ∧ b ≤ '9') then some (b.toNat - 48, rest)
    else if '1' ≤ a ∧ a ≤ '9' then some (a.toNat - 48, b :: rest)
    else none
  | [a] => if '1' ≤ a ∧ a ≤ '9' then some (a.toNat - 48, []) else none
  | [] => none

/-- Match the strptime %H field, regex 2[0-3]|[0-1]\d|\d. -/
def matchHour : Str → Option (Nat × Str)
  | a :: b :: rest =>
    if a = '2' ∧ ('0' ≤ b ∧ b ≤ '3') then some (20 + (b.toNat - 48), rest)
    else if ('0' ≤ a ∧ a ≤ '1') ∧ b.isDigit then some ((a.toNat - 48) * 10 + (b.toNat - 48), rest)
    else if a.isDigit then some (a.toNat - 48, b :: rest)
    else none
  | [a] => if a.isDigit then some (a.toNat - 48, []) else none
  | [] => none

/-- Match the strptime %M field, regex [0-5]\d|\d. -/
def matchMinute : Str → Option (Nat × Str)
  | a :: b :: rest =>
    if ('0' ≤ a ∧ a ≤ '5') ∧ b.isDigit then some ((a.toNat - 48) * 10 + (b.toNat - 48), rest)
    else if a.isDigit then some (a.toNat - 48, b :: rest)
    else none
  | [a] => if a.isDigit then some (a.toNat - 48, []) else none
  | [] => none

/-- Match the strptime %S field, regex 6[0-1]|[0-5]\d|\d. -/
def matchSecond : Str → Option (Nat × Str)
  | a :: b :: rest =>
    if a = '6' ∧ ('0' ≤ b ∧ b ≤ '1') then some (60 + (b.toNat - 48), rest)
    else if ('0' ≤ a ∧ a ≤ '5') ∧ b.isDigit then some ((a.toNat - 48) * 10 + (b.toNat - 48), rest)
    else if a.isDigit then some (a.toNat - 48, b :: rest)
    else none
  | [a] => if a.isDigit then some (a.toNat - 48, []) else none
  | [] => none

/-- Match one literal character of a strptime format. -/
def matchLit (c : Char) : Str → Option Str
  | x :: r => if x = c then some r else none
  | [] => none

/-- Match a literal whitespace in a strptime format (compiled to \s+). -/
def matchSpaces : Str → Option Str
  | x :: r => if pySpace x then some (r.dropWhile pySpace) else none
  | [] => none

/-- The Gregorian leap-year rule, as datetime implements it. -/
def isLeapYear (y : Nat) : Bool :=
  (y % 4 = 0 && y % 100 ≠ 0) || y % 400 = 0

/-- Number of days of a month, as the datetime constructor validates it. -/
def daysInMonth (y m : Nat) : Nat :=
  if m = 1 ∨ m = 3 ∨ m = 5 ∨ m = 7 ∨ m = 8 ∨ m = 10 ∨ m = 12 then 31
  else if m = 2 then (if isLeapYear y then 29 else 28)
  else 30

/-- Validation the datetime constructor performs on strptime results; a
failure raises ValueError, which normalize_time_str treats as a format
mismatch.  The field regexes already bound month, day, hour and minute. -/
def validDateTime (t : PyDateTime) : Bool :=
  1 ≤ t.year && t.day ≤ daysInMonth t.year t.month && t.second ≤ 59

/-- Parse per strptime format "%Y-%m-%d %H:%M:%S" (whole string must match). -/
def parseFmtDash (s : Str) : Option PyDateTime := do
  let (y, s) ← match4Digits s
  let s ← matchLit '-' s
  let (m, s) ← matchMonth s
  let s ← matchLit '-' s
  let (d, s) ← matchDay s
  let s ← matchSpaces s
  let (hh, s) ← matchHour s
  let s ← matchLit ':' s
  let (mm, s) ← matchMinute s
  let s ← matchLit ':' s
  let (ss, s) ← matchSecond s
  if s = [] then
    let t : PyDateTime := ⟨y, m, d, hh, mm, ss⟩
    if validDateTime t then some t else none
  else none

/-- Parse per strptime format "%Y/%m/%d %H:%M:%S". -/
def parseFmtSlash (s : Str) : Option PyDateTime := do
  let (y, s) ← match4Digits s
  let s ← matchLit '/' s
  let (m, s) ← matchMonth s
  let s ← matchLit '/' s
  let (d, s) ← matchDay s
  let s ← matchSpaces s
  let (hh, s) ← matchHour s
  let s ← matchLit ':' s
  let (mm, s) ← matchMinute s
  let s ← matchLit ':' s
  let (ss, s) ← matchSecond s
  if s = [] then
    let t : PyDateTime := ⟨y, m, d, hh, mm, ss⟩
    if validDateTime t then some t else none
  else none

/-- Parse per strptime format "%Y%m%d_%H%M%S" (the legacy ledger time format). -/
def parseFmtCompact (s : Str) : Option PyDateTime := do
  let (y, s) ← match4Digits s
  let (m, s) ← matchMonth s
  let (d, s) ← matchDay s
  let s ← matchLit '_' s
  let (hh, s) ← matchHour s
  let (mm, s) ← matchMinute s
  let (ss, s) ← matchSecond s
  if s = [] then
    let t : PyDateTime := ⟨y, m, d, hh, mm, ss⟩
    if validDateTime t then some t else none
  else none

/-- Decimal digits of a natural number. -/
def natDigits (n : Nat) : Str := (toString n).data

/-- Zero-pad to a given width, as strftime does for %Y (4) and %m %d %H %M %S (2). -/
def zeroPad (w n : Nat) : Str :=
  List.replicate (w - (natDigits n).length) '0' ++ natDigits n

/-- Render per strftime format "%Y-%m-%d %H:%M:%S", the canonical ledger time. -/
def fmtCanonical (t : PyDateTime) : Str :=
  zeroPad 4 t.year ++ '-' :: zeroPad 2 t.month ++ '-' :: zeroPad 2 t.day ++
    ' ' :: zeroPad 2 t.hour ++ ':' :: zeroPad 2 t.minute ++ ':' :: zeroPad 2 t.second

/-- The helper normalize_time_str shared (verbatim-identical) by
src/utils.py save_to_txt and src/server.py get_accounts: strip, accept the
canonical, slash-dated or compact legacy timestamp formats in that order and
re-render canonically; pass everything else through stripped. -/
def normalize_time_str (value : Str) : Str :=
  let v := pyStrip value
  if v = [] then []
  else
    match parseFmtDash v with
    | some t => fmtCanonical t
    | none =>
      match parseFmtSlash v with
      | some t => fmtCanonical t
      | none =>
        match parseFmtCompact v with
        | some t => fmtCanonical t
        | none => v

/-- Structured account record produced by the ledger line parsers. -/
structure Account where
  email : Str
  password : Str
  status : Str
  time : Str
deriving DecidableEq

/-- The string N/A used as the unknown-password fallback. -/
def nA : Str := ['N', '/', 'A']

/-- The four-dash separator of the legacy ledger format. -/
def dash4 : Str := ['-', '-', '-', '-']

/-- The ledger line parser of src/utils.py (nested in save_to_txt):
pipe format email | password | status | time, else legacy dash format
email----password----time----status; comments, blanks and lines without
an @ in the first field parse to nothing; an empty password column falls
back to N/A. -/
def parse_account_line (line : Str) : Option Account :=
  let raw := pyStrip line
  if raw = [] then none
  else if raw.head? = some '#' then none
  else if hasSub ['|'] raw then
    let parts := (pySplit ['|'] 3 raw).map pyStrip
    if parts.length < 2 then none
    else
      let parsed_email := parts.getD 0 []
      if hasSub ['@'] parsed_email then
        some { email := parsed_email
               password := pyOrS (parts.getD 1 []) nA
               status := parts.getD 2 []
               time := normalize_time_str (parts.getD 3 []) }
      else none
  else if hasSub dash4 raw then
    let parts := (pySplit dash4 3 raw).map pyStrip
    if parts.length < 2 then none
    else
      let parsed_email := parts.getD 0 []
      if hasSub ['@'] parsed_email then
        some { email := parsed_email
               password := pyOrS (parts.getD 1 []) nA
               time := normalize_time_str (parts.getD 2 [])
               status := parts.getD 3 [] }
      else none
  else none

/-- The ledger line parser nested in src/server.py get_accounts: identical
shape, except the password column is taken verbatim, with no N/A fallback. -/
def parse_account_line_server (line : Str) : Option Account :=
  let raw := pyStrip line
  if raw = [] then none
  else if raw.head? = some '#' then none
  else if hasSub ['|'] raw then
    let parts := (pySplit ['|'] 3 raw).map pyStrip
    if parts.length < 2 then none
    else
      let email := parts.getD 0 []
      if hasSub ['@'] email then
        some { email := email
               password := parts.getD 1 []
               status := parts.getD 2 []
               time := normalize_time_str (parts.getD 3 []) }
      else none
  else if hasSub dash4 raw then
    let parts := (pySplit dash4 3 raw).map pyStrip
    if parts.length < 2 then none
    else
      let email := parts.getD 0 []
      if hasSub ['@'] email then
        some { email := email
               password := parts.getD 1 []
               status := parts.getD 3 []
               time := normalize_time_str (parts.getD 2 []) }
      else none
  else none

/-- The helper format_account_line nested in save_to_txt: canonical
pipe-delimited serialization of one ledger row, with a trailing newline. -/
def format_account_line (line_email line_password line_status line_time : Str) : Str :=
  let safe_password := pyOrS (pyStrip (pyOrS line_password nA)) nA
  let safe_status := pyStrip line_status
  let safe_time := if line_time = [] then [] else normalize_time_str line_time
  pyStrip line_email ++ ' ' :: '|' :: ' ' :: safe_password ++ ' ' :: '|' :: ' ' :: safe_status ++
    ' ' :: '|' :: ' ' :: safe_time ++ ['\n']

/-- The rewrite loop of save_to_txt over the lines read from the ledger:
unparseable lines pass through verbatim, the line whose parsed email equals
the target is replaced by a fresh row (new status, supplied password or
the previous one or N/A, current timestamp), every other parseable line is
re-emitted in normalized pipe form.  Also reports whether a match was found. -/
def upsertLines (email : Str) (password : Option Str) (status current_date : Str) :
    List Str → List Str × Bool
  | [] => ([], false)
  | line :: rest =>
    let tail := upsertLines email password status current_date rest
    match parse_account_line line with
    | none => (line :: tail.1, tail.2)
    | some parsed =>
      if parsed.email = email then
        (format_account_line email (pyOrOpt password (pyOrS parsed.password nA)) status
            current_date :: tail.1,
          true)
      else
        (format_account_line parsed.email parsed.password parsed.status parsed.time :: tail.1,
          tail.2)

/-- The ledger upsert save_to_txt of src/utils.py, at the line-list level
(path resolution, directory creation and the atomic temp-file rename are
I/O around the readlines/writelines pair embedded here); appends a fresh
row when no existing line matched the email. -/
def save_to_txt (lines : List Str) (email : Str) (password : Option Str)
    (status current_date : Str) : List Str :=
  let new_line_content := format_account_line email (pyOrOpt password nA) status current_date
  let result := upsertLines email password status current_date lines
  if result.2 then result.1 else result.1 ++ [new_line_content]

/-- Whether a ledger line resolves to the given email: it parses and its
parsed email field is that email. -/
def resolvesTo (email : Str) (line : Str) : Bool :=
  match parse_account_line line with
  | some parsed => parsed.email == email
  | none => false

/-- Number of ledger lines resolving to the given email. -/
def countFor (email : Str) (lines : List Str) : Nat :=
  lines.countP (resolvesTo email)

/-- Well-formedness of an email passed to the upsert: contains an @ sign,
contains no pipe, is already stripped, and does not begin the comment marker. -/
def wfEmail (e : Str) : Bool :=
  hasSub ['@'] e && !hasSub ['|'] e && (pyStrip e == e) && !(e.head? == some '#')

/-!  Dashboard server (src/server.py).  -/

/-- Body of the /api/accounts JSON response: either the parsed record list
or an error object. -/
inductive AccountsBody where
  | records : List Account → AccountsBody
  | err : Str → AccountsBody
deriving DecidableEq

/-- The GET /api/accounts handler of src/server.py, as a function of the
outcome of reading the ledger file: none models an absent file (no read is
attempted, the empty list is returned), a successful read yields the lines,
a raised read exception carries its message.  Result is (HTTP status, body);
Flask's default status for a plain jsonify result is 200. -/
def get_accounts (readOutcome : Option (Except Str (List Str))) : Nat × AccountsBody :=
  match readOutcome with
  | none => (200, AccountsBody.records [])
  | some (Except.ok ls) =>
    (200, AccountsBody.records (ls.filterMap parse_account_line_server).reverse)
  | some (Except.error e) => (500, AccountsBody.err e)

/-- The AppState.add_log method of src/server.py: append the timestamped
entry, then evict the oldest entry when the buffer exceeds 1000. -/
def add_log (logs : List Str) (timestamp message : Str) : List Str :=
  let appended := logs ++ ['[' :: timestamp ++ ']' :: ' ' :: message]
  if appended.length > 1000 then appended.drop 1 else appended

/-!  Data generation (src/utils.py).  -/

/-- Modelled from the spec: the configuration constant MIN_AGE of the
configuration store (src/config.py is not part of the reviewed source);
the claims fix the age bounds at (18, 65). -/
def MIN_AGE : Nat := 18

/-- Modelled from the spec: the configuration constant MAX_AGE of the
configuration store. -/
def MAX_AGE : Nat := 65

/-- The characters of string.ascii_uppercase. -/
def ascii_uppercase : Str := "ABCDEFGHIJKLMNOPQRSTUVWXYZ".data

/-- The characters of string.ascii_lowercase. -/
def ascii_lowercase : Str := "abcdefghijklmnopqrstuvwxyz".data

/-- The characters of string.digits. -/
def string_digits : Str := "0123456789".data

/-- The special characters one of which is forced into every password. -/
def password_specials : Str := "!@#$%".data

/-- The function generate_random_password of src/utils.py: the random draw
of the requested length from the configured character set and the four
forced class characters are passed in as the values the RNG produced; the
result is the four class characters followed by the draw from index 4 on. -/
def generate_random_password (draw : Str) (up low dig spec : Char) : Str :=
  up :: low :: dig :: spec :: draw.drop 4

/-- A calendar date (today, for age computations). -/
structure Date where
  year : Nat
  month : Nat
  day : Nat
deriving DecidableEq

/-- Maximum day of the sampled month in the fallback branch of
generate_random_birthday, per its month table and leap rule. -/
def birthday_max_day (birth_year birth_month : Nat) : Nat :=
  if birth_month = 1 ∨ birth_month = 3 ∨ birth_month = 5 ∨ birth_month = 7 ∨
      birth_month = 8 ∨ birth_month = 10 ∨ birth_month = 12 then 31
  else if birth_month = 4 ∨ birth_month = 6 ∨ birth_month = 9 ∨ birth_month = 11 then 30
  else if (birth_year % 4 = 0 ∧ birth_year % 100 ≠ 0) ∨ birth_year % 400 = 0 then 29
  else 28

/-- The fallback branch of generate_random_birthday (taken when Faker is
unavailable): the three random draws birth_year in
[today.year - MAX_AGE, today.year - MIN_AGE], birth_month in [1, 12] and
birth_day in [1, birthday_max_day] are passed in; returns the year string
and the zero-padded month and day strings. -/
def generate_random_birthday_fallback (birth_year birth_month birth_day : Nat) :
    Str × Str × Str :=
  (natDigits birth_year, zeroPad 2 birth_month, zeroPad 2 birth_day)

/-- Age implied by a birth date relative to the current date: completed
years, one less when the birthday has not yet occurred this year. -/
def impliedAge (today : Date) (birth_year birth_month birth_day : Nat) : Int :=
  (today.year : Int) - (birth_year : Int) -
    (if today.month < birth_month ∨ (today.month = birth_month ∧ today.day < birth_day)
      then 1 else 0)

/-- A generated address record (zip, state, city, first address line). -/
structure Addr where
  zip : Str
  state : Str
  city : Str
  address1 : Str
deriving DecidableEq

/-- The low/no-sales-tax state table of generate_us_address (name, code,
candidate cities). -/
def us_states : List (Str × Str × List Str) :=
  [("Delaware".data, "DE".data, ["Wilmington".data, "Dover".data, "Newark".data]),
   ("Oregon".data, "OR".data, ["Portland".data, "Salem".data, "Eugene".data]),
   ("Montana".data, "MT".data, ["Billings".data, "Missoula".data, "Helena".data]),
   ("New Hampshire".data, "NH".data, ["Manchester".data, "Nashua".data, "Concord".data])]

/-- The street-name template list of generate_us_address. -/
def us_street_names : List Str :=
  ["Main St".data, "Oak Ave".data, "Maple Dr".data, "Cedar Ln".data, "Park Blvd".data,
   "Washington St".data, "Lincoln Ave".data, "Jefferson Dr".data, "Madison Ln".data]

/-- Random draws consumed by generate_us_address: the state and city and
street-name choices, the street number, the zip produced by the external
Faker zipcode_in_state call (an oracle string), and the street number of
the fallback branch. -/
structure UsRand where
  stateIdx : Nat
  cityIdx : Nat
  streetNum : Nat
  streetIdx : Nat
  fakerZip : Str
  fallbackNum : Nat

/-- The function generate_us_address of src/utils.py: with Faker available,
pick one of four low-tax states and one of its cities, synthesize a street
line and a state-appropriate zip; without Faker, the fixed New York fallback. -/
def generate_us_address (fakerAvailable : Bool) (r : UsRand) : Addr :=
  if fakerAvailable then
    let st := us_states.getD r.stateIdx ([], [], [])
    { zip := r.fakerZip
      state := st.1
      city := st.2.2.getD r.cityIdx []
      address1 := natDigits r.streetNum ++ ' ' :: us_street_names.getD r.streetIdx [] }
  else
    { zip := "10001".data
      state := "New York".data
      city := "New York".data
      address1 := natDigits r.fallbackNum ++ " Main St".data }

/-- The Tokyo ward table of generate_japan_address (ward, zip prefix). -/
def tokyo_wards : List (Str × Str) :=
  [("Chiyoda-ku".data, "100".data), ("Shibuya-ku".data, "150".data),
   ("Shinjuku-ku".data, "160".data), ("Minato-ku".data, "105".data),
   ("Meguro-ku".data, "153".data), ("Setagaya-ku".data, "154".data),
   ("Nakano-ku".data, "164".data), ("Toshima-ku".data, "170".data)]

/-- The Osaka area table of generate_japan_address (area, zip prefix). -/
def osaka_areas : List (Str × Str) :=
  [("Kita-ku".data, "530".data), ("Chuo-ku".data, "540".data),
   ("Nishi-ku".data, "550".data), ("Tennoji-ku".data, "543".data)]

/-- The fixed fallback address list of generate_japan_address. -/
def japan_fallback_addresses : List Addr :=
  [⟨"100-0005".data, "Tokyo".data, "Chiyoda-ku".data, "1-1 Marunouchi".data⟩,
   ⟨"160-0022".data, "Tokyo".data, "Shinjuku-ku".data, "3-14-1 Shinjuku".data⟩,
   ⟨"150-0002".data, "Tokyo".data, "Shibuya-ku".data, "2-21-1 Shibuya".data⟩,
   ⟨"530-0001".data, "Osaka".data, "Osaka-shi".data, "1-1 Umeda".data⟩]

/-- Random draws consumed by generate_japan_address: the 70 percent
Tokyo-vs-Osaka coin, the ward or area choice, the zip suffix, the three
chome-style street numbers, the fallback address choice and the two
fallback suffix numbers. -/
structure JpRand where
  tokyo : Bool
  wardIdx : Nat
  zipNum : Nat
  c1 : Nat
  c2 : Nat
  c3 : Nat
  fallbackIdx : Nat
  s1 : Nat
  s2 : Nat

/-- The function generate_japan_address of src/utils.py: with Faker
available, 70 percent a Tokyo ward and otherwise an Osaka area, with a
synthesized zip and chome-style street triple; without Faker, one of four
fixed addresses with a random suffix appended. -/
def generate_japan_address (fakerAvailable : Bool) (r : JpRand) : Addr :=
  if fakerAvailable then
    if r.tokyo then
      let w := tokyo_wards.getD r.wardIdx ([], [])
      { zip := w.2 ++ '-' :: natDigits r.zipNum
        state := "Tokyo".data
        city := w.1
        address1 := natDigits r.c1 ++ '-' :: natDigits r.c2 ++ '-' :: natDigits r.c3 }
    else
      let a := osaka_areas.getD r.wardIdx ([], [])
      { zip := a.2 ++ '-' :: natDigits r.zipNum
        state := "Osaka".data
        city := a.1
        address1 := natDigits r.c1 ++ '-' :: natDigits r.c2 ++ '-' :: natDigits r.c3 }
  else
    let base := japan_fallback_addresses.getD r.fallbackIdx ⟨[], [], [], []⟩
    { base with address1 := base.address1 ++ ' ' :: natDigits r.s1 ++ '-' :: natDigits r.s2 }

/-- Python str.upper() restricted to its ASCII action, which is all the
country codes involved exercise. -/
def pyUpper (s : Str) : Str := s.map Char.toUpper

/-- A generated billing-info record. -/
structure Billing where
  name : Str
  zip : Str
  state : Str
  city : Str
  address1 : Str
  country : Str
deriving DecidableEq

/-- The function generate_billing_info of src/utils.py: a generated name
(passed in, its randomness being orthogonal) combined with the
country-appropriate address: only an upper-cased country code equal to US
routes to the US generator, everything else to Japan; the record is tagged
with the upper-cased code. -/
def generate_billing_info (fakerAvailable : Bool) (country : Str) (name : Str)
    (us : UsRand) (jp : JpRand) : Billing :=
  let address :=
    if pyUpper country = "US".data then generate_us_address fakerAvailable us
    else generate_japan_address fakerAvailable jp
  { name := name
    zip := address.zip
    state := address.state
    city := address.city
    address1 := address.address1
    country := pyUpper country }

/-!  Login flow (src/browser.py).  -/

/-- Outcome of a Python call: a returned boolean or a propagated exception. -/
inductive PyOutcome where
  | ret : Bool → PyOutcome
  | raised : Str → PyOutcome
deriving DecidableEq

/-- Environment of one login run: the outcome of each step of the flow
that can raise out of the surrounding blocks.  The entry-button search and
the password-mode switch search are wrapped in their own try blocks whose
handlers only print, so they never propagate and need no slot; the email
wait, the continue click and the password block (wait, type, submit) can
raise, and the final URL check is a boolean. -/
structure LoginEnv where
  nav : Except Str Unit
  emailStep : Except Str Unit
  continueStep : Except Str Unit
  passwordStep : Except Str Unit
  urlHasAuth : Bool

/-- The function login of src/browser.py, as its exception control flow:
the whole body sits in one try block whose handler prints and returns
false; inside it, the password block has its own handler that prints and
re-raises; when no exception escapes, both arms of the final URL check
return true. -/
def login (env : LoginEnv) : PyOutcome :=
  let body : Except Str Bool := do
    env.nav
    env.emailStep
    env.continueStep
    match env.passwordStep with
    | Except.error e => Except.error e
    | Except.ok _ =>
      if env.urlHasAuth = false then pure true
      else pure true
  match body with
  | Except.ok b => PyOutcome.ret b
  | Except.error _ => PyOutcome.ret false

/-- The login environment in which the wait for a password input times out
and every earlier step succeeds. -/
def loginEnvNoPasswordField : LoginEnv :=
  { nav := Except.ok ()
    emailStep := Except.ok ()
    continueStep := Except.ok ()
    passwordStep := Except.error "TimeoutException".data
    urlHasAuth := true }

/-- A pipe-format ledger line email | password | status | time built from
four fields. -/
def mkPipeLine (e p s t : Str) : Str :=
  e ++ ' ' :: '|' :: ' ' :: p ++ ' ' :: '|' :: ' ' :: s ++ ' ' :: '|' :: ' ' :: t

/-- A legacy dash-format ledger line email----password----time----status
built from the same four fields. -/
def mkDashLine (e p s t : Str) : Str :=
  e ++ dash4 ++ p ++ dash4 ++ t ++ dash4 ++ s

/-- A field is dash-safe when it cannot combine with the four-dash
separator that follows it to form an earlier separator occurrence: the
field followed by three dashes contains no four-dash run (in particular the
field neither contains four dashes nor ends in a dash). -/
def dashSafe (f : Str) : Bool := !hasSub dash4 (f ++ ['-', '-', '-'])

/-- Concrete random draws for a US address (state Delaware, city Wilmington). -/
def usRandEx : UsRand := ⟨0, 0, 742, 0, "19901".data, 123⟩

/-- Concrete random draws for a Japan address (Tokyo, Chiyoda-ku). -/
def jpRandEx : JpRand := ⟨true, 0, 4821, 2, 14, 7, 0, 3, 12⟩

/-!  Theorems.  -/

/-!  Helper lemmas about the string primitives.  -/

theorem isPrefixOf_single (c x : Char) (t : Str) :
    [c].isPrefixOf (x :: t) = (c == x) := by
  simp [List.isPrefixOf]

theorem subAt_char_cons_ne (c x : Char) (t : Str) (hx : c ≠ x) :
    subAt [c] (x :: t) = (subAt [c] t).map (· + 1) := by
  simp only [subAt, isPrefixOf_single]
  rw [if_neg]
  simp [hx]

theorem subAt_char_append (c : Char) (a b : Str) (hc : c ∉ a) :
    subAt [c] (a ++ c :: b) = some a.length := by
  induction a with
  | nil =>
    simp [subAt, isPrefixOf_single]
  | cons x t ih =>
    have hx : c ≠ x := fun h => hc (h ▸ List.mem_cons_self x t)
    have ht : c ∉ t := fun h => hc (List.mem_cons_of_mem x h)
    rw [List.cons_append, subAt_char_cons_ne c x _ hx, ih ht]
    rfl

theorem subAt_char_take (c : Char) (s : Str) (i : Nat) (h : subAt [c] s = some i) :
    c ∉ s.take i := by
  induction s generalizing i with
  | nil =>
    simp
  | cons x t ih =>
    by_cases hx : c = x
    · have h0 : subAt [c] (x :: t) = some 0 := by
        simp [subAt, isPrefixOf_single, hx]
      rw [h0] at h
      cases h
      simp
    · rw [subAt_char_cons_ne c x t hx] at h
      rcases Option.map_eq_some'.mp h with ⟨j, hj, hji⟩
      subst hji
      simp only [List.take_succ_cons, List.mem_cons]
      rintro (h | h)
      · exact hx h
      · exact ih j hj h

theorem subAt_some_of_drop (sep : Str) (hsep : sep ≠ []) (s : Str) (i : Nat)
    (h : sep.isPrefixOf (s.drop i) = true) : (subAt sep s).isSome := by
  induction s generalizing i with
  | nil =>
    rw [List.drop_nil, List.isPrefixOf_iff_prefix] at h
    exact absurd (List.prefix_nil.mp h) hsep
  | cons x t ih =>
    cases i with
    | zero =>
      rw [List.drop_zero] at h
      cases t0 : sep.isPrefixOf (x :: t) with
      | false => rw [t0] at h; cases h
      | true => simp [subAt, t0]
    | succ j =>
      rw [List.drop_succ_cons] at h
      have := ih j h
      simp only [subAt]
      split
      · simp
      · simpa using this

theorem hasSub_char_iff (c : Char) (s : Str) : hasSub [c] s = true ↔ c ∈ s := by
  induction s with
  | nil => simp [hasSub, subAt]
  | cons x t ih =>
    by_cases hx : c = x
    · subst hx
      simp [hasSub, subAt, isPrefixOf_single]
    · rw [hasSub, subAt_char_cons_ne c x t hx, Option.isSome_map']
      rw [← hasSub]
      rw [ih]
      simp [hx]

theorem pySplit_ne_nil (sep : Str) (m : Nat) (s : Str) : pySplit sep m s ≠ [] := by
  cases m with
  | zero => simp [pySplit]
  | succ k =>
    simp only [pySplit]
    split <;> simp

theorem split_char_step (c : Char) (a b : Str) (hc : c ∉ a) (m : Nat) :
    pySplit [c] (m + 1) (a ++ c :: b) = a :: pySplit [c] m b := by
  simp only [pySplit, subAt_char_append c a b hc]
  congr 1
  · exact List.take_left a (c :: b)
  · simp only [List.length_singleton]
    rw [← List.drop_drop, List.drop_left]
    rfl

theorem subAt_cons (sep : Str) (c : Char) (t : Str) :
    subAt sep (c :: t) =
      if sep.isPrefixOf (c :: t) then some 0 else (subAt sep t).map (· + 1) := rfl

theorem isPrefixOf_take (l₁ l₂ : Str) : l₁.isPrefixOf l₂ = true ↔ l₂.take l₁.length = l₁ := by
  rw [List.isPrefixOf_iff_prefix]
  constructor
  · intro h
    rcases h with ⟨r, rfl⟩
    exact List.take_left l₁ r
  · intro h
    have htd := List.take_append_drop l₁.length l₂
    rw [h] at htd
    exact ⟨l₂.drop l₁.length, htd⟩

theorem take_dash_head (m : Nat) (hm : m ≤ 3) :
    dash4.take m = (['-', '-', '-'] : Str).take m := by
  interval_cases m <;> rfl

theorem take_four_dash_window (x b : Str) (hx : x ≠ []) :
    (x ++ (dash4 ++ b)).take 4 = (x ++ ['-', '-', '-']).take 4 := by
  have hlen : 1 ≤ x.length := List.length_pos.mpr hx
  rw [List.take_append_eq_append_take, List.take_append_eq_append_take,
    List.take_append_eq_append_take]
  have h0 : 4 - x.length - dash4.length = 0 := by
    simp only [dash4, List.length_cons, List.length_nil]
    omega
  rw [h0, List.take_zero, List.append_nil]
  rw [take_dash_head (4 - x.length) (by omega)]

theorem hasSub_cons_mono (sep : Str) (x : Char) (t : Str) (h : hasSub sep t = true) :
    hasSub sep (x :: t) = true := by
  simp only [hasSub, subAt]
  split
  · simp
  · simpa using h

theorem subAt_dash_append (a b : Str) (hsafe : hasSub dash4 (a ++ ['-', '-', '-']) = false) :
    subAt dash4 (a ++ (dash4 ++ b)) = some a.length := by
  induction a with
  | nil =>
    have hpre : dash4.isPrefixOf ('-' :: (['-', '-', '-'] ++ b)) = true := by
      rw [isPrefixOf_take]
      exact List.take_left dash4 b
    rw [List.nil_append]
    rw [show dash4 ++ b = '-' :: (['-', '-', '-'] ++ b) from rfl]
    rw [subAt_cons, if_pos hpre]
    rfl
  | cons x t ih =>
    have hne : (x :: t) ≠ ([] : Str) := List.cons_ne_nil x t
    have hhead : dash4.isPrefixOf (x :: (t ++ (dash4 ++ b))) = false := by
      by_contra hcon
      have htrue : dash4.isPrefixOf ((x :: t) ++ (dash4 ++ b)) = true := by
        rw [List.cons_append]
        exact eq_true_of_ne_false hcon
      rw [isPrefixOf_take] at htrue
      have hwin : ((x :: t) ++ ['-', '-', '-']).take 4 = dash4 := by
        rw [← take_four_dash_window (x :: t) b hne]
        exact htrue
      have hpre : dash4.isPrefixOf ((x :: t) ++ ['-', '-', '-']) = true := by
        rw [isPrefixOf_take]
        exact hwin
      have hs : (subAt dash4 ((x :: t) ++ ['-', '-', '-'])).isSome := by
        apply subAt_some_of_drop dash4 (by simp [dash4]) _ 0
        rw [List.drop_zero]
        exact hpre
      rw [show (subAt dash4 ((x :: t) ++ ['-', '-', '-'])).isSome =
        hasSub dash4 ((x :: t) ++ ['-', '-', '-']) from rfl, hsafe] at hs
      cases hs
    have hsafe2 : hasSub dash4 (t ++ ['-', '-', '-']) = false := by
      by_contra hcon
      have hmono : hasSub dash4 (x :: (t ++ ['-', '-', '-'])) = true :=
        hasSub_cons_mono _ x _ (eq_true_of_ne_false hcon)
      rw [← List.cons_append] at hmono
      rw [hmono] at hsafe
      cases hsafe
    rw [List.cons_append, subAt_cons, if_neg (by simp [hhead]), ih hsafe2]
    rfl

theorem split_dash_step (a b : Str) (hsafe : hasSub dash4 (a ++ ['-', '-', '-']) = false)
    (m : Nat) : pySplit dash4 (m + 1) (a ++ (dash4 ++ b)) = a :: pySplit dash4 m b := by
  simp only [pySplit, subAt_dash_append a b hsafe]
  congr 1
  · exact List.take_left a (dash4 ++ b)
  · have h1 : a.length + dash4.length = (a ++ dash4).length := (List.length_append a dash4).symm
    rw [h1, ← List.append_assoc, List.drop_left]

theorem stripLeft_cons_nonspace (c : Char) (t : Str) (h : pySpace c = false) :
    stripLeft (c :: t) = c :: t := by
  simp [stripLeft, List.dropWhile_cons, h]

theorem stripLeft_suf (l : Str) : stripLeft l <:+ l := List.dropWhile_suffix pySpace

theorem stripRight_pre (l : Str) : stripRight l <+: l := by
  unfold stripRight
  rw [← List.reverse_suffix]
  simp only [List.reverse_reverse]
  exact List.dropWhile_suffix pySpace

theorem stripRight_append_split (u v : Str) :
    stripRight (u ++ v) = if stripRight v = [] then stripRight u else u ++ stripRight v := by
  unfold stripRight
  rw [List.reverse_append, List.dropWhile_append]
  have hc : (v.reverse.dropWhile pySpace).isEmpty = true ↔
      (v.reverse.dropWhile pySpace).reverse = [] := by
    rw [List.isEmpty_iff, List.reverse_eq_nil_iff]
  by_cases h : (v.reverse.dropWhile pySpace).isEmpty = true
  · rw [if_pos h, if_pos (hc.mp h)]
  · rw [if_neg h, if_neg (fun hr => h (hc.mpr hr))]
    rw [List.reverse_append, List.reverse_reverse]

theorem stripRight_eq_nil_iff (l : Str) :
    stripRight l = [] ↔ ∀ c ∈ l, pySpace c = true := by
  unfold stripRight
  rw [List.reverse_eq_nil_iff]
  rw [List.dropWhile_eq_nil_iff]
  constructor
  · intro h c hc
    exact h c (List.mem_reverse.mpr hc)
  · intro h c hc
    exact h c (List.mem_reverse.mp hc)

theorem dropWhile_pySpace_idem (l : Str) :
    (l.dropWhile pySpace).dropWhile pySpace = l.dropWhile pySpace := by
  induction l with
  | nil => rfl
  | cons c t ih =>
    by_cases h : pySpace c = true
    · simp only [List.dropWhile_cons, h, if_true]
      exact ih
    · have h2 : pySpace c = false := Bool.not_eq_true _ ▸ h
      simp [List.dropWhile_cons, h2]

theorem stripLeft_idem (l : Str) : stripLeft (stripLeft l) = stripLeft l :=
  dropWhile_pySpace_idem l

theorem stripRight_idem (l : Str) : stripRight (stripRight l) = stripRight l := by
  unfold stripRight
  rw [List.reverse_reverse]
  rw [dropWhile_pySpace_idem]

theorem head_nonspace_of_stripLeft (x : Str) (hx : stripLeft x = x) (c : Char) (t : Str)
    (hct : x = c :: t) : pySpace c = false := by
  subst hct
  by_contra hcon
  have hsp : pySpace c = true := eq_true_of_ne_false hcon
  have h1 : stripLeft (c :: t) = stripLeft t := by
    simp [stripLeft, List.dropWhile_cons, hsp]
  rw [h1] at hx
  have h2 : (stripLeft t).length ≤ t.length := (stripLeft_suf t).length_le
  rw [hx] at h2
  simp at h2

theorem stripLeft_of_pre (x y : Str) (hx : stripLeft x = x) (hy : y <+: x) :
    stripLeft y = y := by
  cases y with
  | nil => rfl
  | cons c t =>
    rcases hy with ⟨r, hr⟩
    have : pySpace c = false :=
      head_nonspace_of_stripLeft x hx c (t ++ r) (by rw [← hr]; rfl)
    exact stripLeft_cons_nonspace c t this

theorem pyStrip_idem (l : Str) : pyStrip (pyStrip l) = pyStrip l := by
  unfold pyStrip
  rw [stripLeft_of_pre (stripLeft l) (stripRight (stripLeft l)) (stripLeft_idem l)
    (stripRight_pre (stripLeft l))]
  rw [stripRight_idem]

theorem strip_parts_of_pyStrip (l : Str) (h : pyStrip l = l) :
    stripLeft l = l ∧ stripRight l = l := by
  have h1 : (stripRight (stripLeft l)).length ≤ (stripLeft l).length :=
    (stripRight_pre (stripLeft l)).length_le
  have h2 : (stripLeft l).length ≤ l.length := (stripLeft_suf l).length_le
  have h3 : (stripRight (stripLeft l)).length = l.length := by rw [show stripRight (stripLeft l) = pyStrip l from rfl, h]
  have h4 : (stripLeft l).length = l.length := by omega
  have h5 : stripLeft l = l := (stripLeft_suf l).eq_of_length h4
  constructor
  · exact h5
  · rw [show stripRight l = pyStrip l from by rw [pyStrip, h5], h]

theorem pyStrip_mem (c : Char) (l : Str) (h : c ∈ pyStrip l) : c ∈ l := by
  have h1 : c ∈ stripLeft l := (stripRight_pre (stripLeft l)).sublist.mem h
  exact (stripLeft_suf l).sublist.mem h1

theorem pyStrip_eq_self_of_ends (l : Str) (c : Char) (r : Str) (hl : l = c :: r)
    (hc : pySpace c = false) (A z : Str) (hAz : l = A ++ z) (hz : stripRight z = z)
    (hzne : z ≠ []) : pyStrip l = l := by
  have h1 : stripLeft l = l := by
    rw [hl]
    exact stripLeft_cons_nonspace c r hc
  have h2 : stripRight l = l := by
    rw [hAz, stripRight_append_split, hz, if_neg hzne]
  rw [pyStrip, h1, h2]

theorem pyStrip_space_cons (f : Str) : pyStrip (' ' :: f) = pyStrip f := by
  unfold pyStrip stripLeft
  rw [List.dropWhile_cons, if_pos (by decide : pySpace ' ' = true)]

theorem pyStrip_append_space (f : Str) : pyStrip (f ++ [' ']) = pyStrip f := by
  unfold pyStrip stripLeft
  rw [List.dropWhile_append]
  by_cases h : (f.dropWhile pySpace).isEmpty = true
  · rw [if_pos h]
    rw [List.isEmpty_iff.mp h]
    rfl
  · rw [if_neg h]
    rw [stripRight_append_split]
    rw [if_pos (by rfl : stripRight [' '] = [])]

theorem mem_take_of (c : Char) (l : Str) (n : Nat) (h : c ∈ l.take n) : c ∈ l :=
  List.take_subset n l h

theorem head_take_of_pos (l : Str) (i : Nat) (hl : l ≠ []) (hi : 1 ≤ i) :
    (l.take i).head? = l.head? := by
  cases l with
  | nil => exact absurd rfl hl
  | cons c t =>
    cases i with
    | zero => omega
    | succ j => rfl

theorem head_of_pre (y x : Str) (h : y <+: x) (hy : y ≠ []) : y.head? = x.head? := by
  rcases h with ⟨r, rfl⟩
  cases y with
  | nil => exact absurd rfl hy
  | cons c t => rfl

theorem parse_eval_pipe (line raw : Str) (hraw : pyStrip line = raw) (hne : raw ≠ [])
    (hhead : ¬ raw.head? = some '#') (hpipe : hasSub ['|'] raw = true)
    (e1 p1 s1 t1 : Str)
    (hparts : (pySplit ['|'] 3 raw).map pyStrip = [e1, p1, s1, t1])
    (hat : hasSub ['@'] e1 = true) :
    parse_account_line line = some ⟨e1, pyOrS p1 nA, s1, normalize_time_str t1⟩ ∧
      parse_account_line_server line = some ⟨e1, p1, s1, normalize_time_str t1⟩ := by
  constructor
  · unfold parse_account_line
    rw [hraw, if_neg hne, if_neg hhead, if_pos hpipe, hparts]
    rw [if_neg (by simp)]
    simp only [List.getD_cons_zero, List.getD_cons_succ]
    rw [if_pos hat]
  · unfold parse_account_line_server
    rw [hraw, if_neg hne, if_neg hhead, if_pos hpipe, hparts]
    rw [if_neg (by simp)]
    simp only [List.getD_cons_zero, List.getD_cons_succ]
    rw [if_pos hat]

theorem parse_eval_dash (line raw : Str) (hraw : pyStrip line = raw) (hne : raw ≠ [])
    (hhead : ¬ raw.head? = some '#') (hnopipe : hasSub ['|'] raw = false)
    (hdash : hasSub dash4 raw = true)
    (e1 p1 t1 s1 : Str)
    (hparts : (pySplit dash4 3 raw).map pyStrip = [e1, p1, t1, s1])
    (hat : hasSub ['@'] e1 = true) :
    parse_account_line line = some ⟨e1, pyOrS p1 nA, s1, normalize_time_str t1⟩ ∧
      parse_account_line_server line = some ⟨e1, p1, s1, normalize_time_str t1⟩ := by
  constructor
  · unfold parse_account_line
    rw [hraw, if_neg hne, if_neg hhead, if_neg (by simp [hnopipe]), if_pos hdash, hparts]
    rw [if_neg (by simp)]
    simp only [List.getD_cons_zero, List.getD_cons_succ]
    rw [if_pos hat]
  · unfold parse_account_line_server
    rw [hraw, if_neg hne, if_neg hhead, if_neg (by simp [hnopipe]), if_pos hdash, hparts]
    rw [if_neg (by simp)]
    simp only [List.getD_cons_zero, List.getD_cons_succ]
    rw [if_pos hat]

theorem parse_eval_pipe_email (line raw : Str) (hraw : pyStrip line = raw) (hne : raw ≠ [])
    (hhead : ¬ raw.head? = some '#') (hpipe : hasSub ['|'] raw = true)
    (e1 : Str) (rest : List Str)
    (hparts : (pySplit ['|'] 3 raw).map pyStrip = e1 :: rest) (hrest : rest ≠ [])
    (hat : hasSub ['@'] e1 = true) :
    ∃ r, parse_account_line line = some r ∧ r.email = e1 := by
  have hlen : ¬ (e1 :: rest).length < 2 := by
    have : 1 ≤ rest.length := List.length_pos.mpr hrest
    simp only [List.length_cons]
    omega
  refine ⟨⟨e1, pyOrS ((e1 :: rest).getD 1 []) nA, (e1 :: rest).getD 2 [],
    normalize_time_str ((e1 :: rest).getD 3 [])⟩, ?_, rfl⟩
  unfold parse_account_line
  rw [hraw, if_neg hne, if_neg hhead, if_pos hpipe, hparts]
  rw [if_neg hlen]
  simp only [List.getD_cons_zero]
  rw [if_pos hat]

theorem mkPipe_split (e p s t : Str) (hep : '|' ∉ e) (hpp : '|' ∉ p) (hsp : '|' ∉ s) :
    pySplit ['|'] 3 (mkPipeLine e p s t) =
      [e ++ [' '], ' ' :: p ++ [' '], ' ' :: s ++ [' '], ' ' :: t] := by
  have h1 : mkPipeLine e p s t =
      (e ++ [' ']) ++ '|' :: (' ' :: p ++ ' ' :: '|' :: ' ' :: s ++ ' ' :: '|' :: ' ' :: t) := by
    simp [mkPipeLine, List.append_assoc]
  rw [h1, split_char_step '|' _ _ (by simp [hep]) 2]
  have h2 : ' ' :: p ++ ' ' :: '|' :: ' ' :: s ++ ' ' :: '|' :: ' ' :: t =
      (' ' :: p ++ [' ']) ++ '|' :: (' ' :: s ++ ' ' :: '|' :: ' ' :: t) := by
    simp [List.append_assoc]
  rw [h2, split_char_step '|' _ _ (by simp [hpp]) 1]
  have h3 : ' ' :: s ++ ' ' :: '|' :: ' ' :: t = (' ' :: s ++ [' ']) ++ '|' :: (' ' :: t) := by
    simp [List.append_assoc]
  rw [h3, split_char_step '|' _ _ (by simp [hsp]) 0]
  rfl

theorem mkPipe_parts (e p s t : Str) (he : pyStrip e = e) (hp : pyStrip p = p)
    (hs : pyStrip s = s) (ht : pyStrip t = t)
    (hep : '|' ∉ e) (hpp : '|' ∉ p) (hsp : '|' ∉ s) :
    (pySplit ['|'] 3 (mkPipeLine e p s t)).map pyStrip = [e, p, s, t] := by
  rw [mkPipe_split e p s t hep hpp hsp]
  simp only [List.map_cons, List.map_nil]
  rw [pyStrip_append_space e, pyStrip_append_space (' ' :: p), pyStrip_space_cons p,
    pyStrip_append_space (' ' :: s), pyStrip_space_cons s, pyStrip_space_cons t,
    he, hp, hs, ht]

theorem hasSub_false_of_not_mem (c : Char) (l : Str) (h : c ∉ l) : hasSub [c] l = false := by
  cases hb : hasSub [c] l with
  | false => rfl
  | true => exact absurd ((hasSub_char_iff c l).mp hb) h

theorem dashSafe_false_elim (f : Str) (hd : dashSafe f = true) :
    hasSub dash4 (f ++ ['-', '-', '-']) = false := by
  have := hd
  unfold dashSafe at this
  cases hb : hasSub dash4 (f ++ ['-', '-', '-']) with
  | false => rfl
  | true => rw [hb] at this; cases this

theorem mkDash_split (e p s t : Str) (hde : dashSafe e = true) (hdp : dashSafe p = true)
    (hdt : dashSafe t = true) :
    pySplit dash4 3 (mkDashLine e p s t) = [e, p, t, s] := by
  have h1 : mkDashLine e p s t = e ++ (dash4 ++ (p ++ (dash4 ++ (t ++ (dash4 ++ s))))) := by
    simp [mkDashLine, List.append_assoc]
  rw [h1, split_dash_step e _ (dashSafe_false_elim e hde) 2,
    split_dash_step p _ (dashSafe_false_elim p hdp) 1,
    split_dash_step t _ (dashSafe_false_elim t hdt) 0]
  rfl

theorem mkDash_parts (e p s t : Str) (he : pyStrip e = e) (hp : pyStrip p = p)
    (hs : pyStrip s = s) (ht : pyStrip t = t)
    (hde : dashSafe e = true) (hdp : dashSafe p = true) (hdt : dashSafe t = true) :
    (pySplit dash4 3 (mkDashLine e p s t)).map pyStrip = [e, p, t, s] := by
  rw [mkDash_split e p s t hde hdp hdt]
  simp only [List.map_cons, List.map_nil]
  rw [he, hp, hs, ht]

theorem email_shape (e : Str) (he : pyStrip e = e) (hat : hasSub ['@'] e = true) :
    ∃ c r, e = c :: r ∧ pySpace c = false := by
  have hmem : '@' ∈ e := (hasSub_char_iff '@' e).mp hat
  cases hcr : e with
  | nil => rw [hcr] at hmem; cases hmem
  | cons c r =>
    refine ⟨c, r, rfl, ?_⟩
    exact head_nonspace_of_stripLeft e ((strip_parts_of_pyStrip e he).1) c r hcr

theorem parse_mkPipe (e p s t : Str) (he : pyStrip e = e) (hp : pyStrip p = p)
    (hs : pyStrip s = s) (ht : pyStrip t = t) (hep : '|' ∉ e) (hpp : '|' ∉ p)
    (hsp : '|' ∉ s) (htne : t ≠ []) (hat : hasSub ['@'] e = true)
    (hhash : ¬ e.head? = some '#') :
    parse_account_line (mkPipeLine e p s t) =
        some ⟨e, pyOrS p nA, s, normalize_time_str t⟩ ∧
      parse_account_line_server (mkPipeLine e p s t) =
        some ⟨e, p, s, normalize_time_str t⟩ := by
  obtain ⟨c, r, hcr, hc⟩ := email_shape e he hat
  have hline_cons : mkPipeLine e p s t = c :: (r ++ ' ' :: '|' :: ' ' :: p ++ ' ' :: '|' ::
      ' ' :: s ++ ' ' :: '|' :: ' ' :: t) := by
    rw [mkPipeLine, hcr]
    rfl
  have hends : mkPipeLine e p s t =
      (e ++ ' ' :: '|' :: ' ' :: p ++ ' ' :: '|' :: ' ' :: s ++ [' ', '|', ' ']) ++ t := by
    simp [mkPipeLine, List.append_assoc]
  have hraw : pyStrip (mkPipeLine e p s t) = mkPipeLine e p s t :=
    pyStrip_eq_self_of_ends _ c _ hline_cons hc _ t hends
      ((strip_parts_of_pyStrip t ht).2) htne
  have hne : mkPipeLine e p s t ≠ [] := by
    rw [hline_cons]
    exact List.cons_ne_nil c _
  have hhead : ¬ (mkPipeLine e p s t).head? = some '#' := by
    rw [hline_cons]
    simp only [List.head?_cons]
    intro hcon
    apply hhash
    rw [hcr]
    exact hcon
  have hpipe : hasSub ['|'] (mkPipeLine e p s t) = true := by
    rw [hasSub_char_iff]
    simp [mkPipeLine]
  exact parse_eval_pipe _ _ hraw hne hhead hpipe e p s t
    (mkPipe_parts e p s t he hp hs ht hep hpp hsp) hat

theorem parse_mkDash (e p s t : Str) (he : pyStrip e = e) (hp : pyStrip p = p)
    (hs : pyStrip s = s) (ht : pyStrip t = t)
    (hep : '|' ∉ e) (hpp : '|' ∉ p) (hsp : '|' ∉ s) (htp : '|' ∉ t)
    (hde : dashSafe e = true) (hdp : dashSafe p = true) (hdt : dashSafe t = true)
    (hsne : s ≠ []) (hat : hasSub ['@'] e = true) (hhash : ¬ e.head? = some '#') :
    parse_account_line (mkDashLine e p s t) =
        some ⟨e, pyOrS p nA, s, normalize_time_str t⟩ ∧
      parse_account_line_server (mkDashLine e p s t) =
        some ⟨e, p, s, normalize_time_str t⟩ := by
  obtain ⟨c, r, hcr, hc⟩ := email_shape e he hat
  have hline_cons : mkDashLine e p s t =
      c :: (r ++ dash4 ++ p ++ dash4 ++ t ++ dash4 ++ s) := by
    rw [mkDashLine, hcr]
    simp [List.append_assoc]
  have hends : mkDashLine e p s t = (e ++ dash4 ++ p ++ dash4 ++ t ++ dash4) ++ s := by
    simp [mkDashLine, List.append_assoc]
  have hraw : pyStrip (mkDashLine e p s t) = mkDashLine e p s t :=
    pyStrip_eq_self_of_ends _ c _ hline_cons hc _ s hends
      ((strip_parts_of_pyStrip s hs).2) hsne
  have hne : mkDashLine e p s t ≠ [] := by
    rw [hline_cons]
    exact List.cons_ne_nil c _
  have hhead : ¬ (mkDashLine e p s t).head? = some '#' := by
    rw [hline_cons]
    simp only [List.head?_cons]
    intro hcon
    apply hhash
    rw [hcr]
    exact hcon
  have hnopipe : hasSub ['|'] (mkDashLine e p s t) = false := by
    apply hasSub_false_of_not_mem
    intro hmem
    simp only [mkDashLine, List.mem_append] at hmem
    rcases hmem with ((((((hm | hm) | hm) | hm) | hm) | hm) | hm)
    · exact hep hm
    · simp [dash4] at hm
    · exact hpp hm
    · simp [dash4] at hm
    · exact htp hm
    · simp [dash4] at hm
    · exact hsp hm
  have hdash : hasSub dash4 (mkDashLine e p s t) = true := by
    have h1 : mkDashLine e p s t = e ++ (dash4 ++ (p ++ (dash4 ++ (t ++ (dash4 ++ s))))) := by
      simp [mkDashLine, List.append_assoc]
    rw [hasSub, h1, subAt_dash_append e _ (dashSafe_false_elim e hde)]
    rfl
  exact parse_eval_dash _ _ hraw hne hhead hnopipe hdash e p t s
    (mkDash_parts e p s t he hp hs ht hde hdp hdt) hat

theorem pyOrS_nA_ne_nil (a : Str) : pyOrS a nA ≠ [] := by
  unfold pyOrS
  by_cases ha : a = []
  · rw [if_pos ha]
    decide
  · rw [if_neg ha]
    exact ha

theorem parse_password_ne_nil (line : Str) (r : Account)
    (h : parse_account_line line = some r) : r.password ≠ [] := by
  unfold parse_account_line at h
  by_cases h0 : pyStrip line = []
  · rw [if_pos h0] at h; cases h
  rw [if_neg h0] at h
  by_cases h1 : (pyStrip line).head? = some '#'
  · rw [if_pos h1] at h; cases h
  rw [if_neg h1] at h
  by_cases h2 : hasSub ['|'] (pyStrip line) = true
  · rw [if_pos h2] at h
    by_cases h3 : ((pySplit ['|'] 3 (pyStrip line)).map pyStrip).length < 2
    · rw [if_pos h3] at h; cases h
    rw [if_neg h3] at h
    by_cases h4 :
        hasSub ['@'] (((pySplit ['|'] 3 (pyStrip line)).map pyStrip).getD 0 []) = true
    · rw [if_pos h4] at h
      injection h with h5
      rw [← h5]
      exact pyOrS_nA_ne_nil _
    · rw [if_neg h4] at h; cases h
  · rw [if_neg h2] at h
    by_cases h2d : hasSub dash4 (pyStrip line) = true
    · rw [if_pos h2d] at h
      by_cases h3 : ((pySplit dash4 3 (pyStrip line)).map pyStrip).length < 2
      · rw [if_pos h3] at h; cases h
      rw [if_neg h3] at h
      by_cases h4 :
          hasSub ['@'] (((pySplit dash4 3 (pyStrip line)).map pyStrip).getD 0 []) = true
      · rw [if_pos h4] at h
        injection h with h5
        rw [← h5]
        exact pyOrS_nA_ne_nil _
      · rw [if_neg h4] at h; cases h
    · rw [if_neg h2d] at h; cases h

theorem stripped_shape (x : Str) (hx : pyStrip x = x) (hne : x ≠ []) :
    ∃ c r, x = c :: r ∧ pySpace c = false := by
  cases hcr : x with
  | nil => exact absurd hcr hne
  | cons c r =>
    exact ⟨c, r, rfl,
      head_nonspace_of_stripLeft x ((strip_parts_of_pyStrip x hx).1) c r hcr⟩

theorem safe_password_shape (p : Str) :
    ∃ d q, pyOrS (pyStrip (pyOrS p nA)) nA = d :: q ∧ pySpace d = false := by
  by_cases h : pyStrip (pyOrS p nA) = []
  · rw [pyOrS, if_pos h]
    exact ⟨'N', ['/', 'A'], rfl, by decide⟩
  · rw [pyOrS, if_neg h]
    exact stripped_shape (pyStrip (pyOrS p nA)) (pyStrip_idem (pyOrS p nA)) h

theorem wf_of_part0 (raw : Str) (hraw : pyStrip raw = raw) (hhash : ¬ raw.head? = some '#')
    (i : Nat) (hpx : '|' ∉ raw.take i)
    (hat : hasSub ['@'] (pyStrip (raw.take i)) = true) :
    wfEmail (pyStrip (raw.take i)) = true := by
  have hxe_ne : pyStrip (raw.take i) ≠ [] := by
    intro hnil
    rw [hnil] at hat
    exact absurd hat (by decide)
  have hx_ne : raw.take i ≠ [] := by
    intro hnil
    rw [hnil] at hxe_ne
    exact hxe_ne rfl
  have hraw_ne : raw ≠ [] := by
    intro hnil
    rw [hnil, List.take_nil] at hx_ne
    exact hx_ne rfl
  have hi : 1 ≤ i := by
    cases i with
    | zero => rw [List.take_zero] at hx_ne; exact absurd rfl hx_ne
    | succ j => omega
  obtain ⟨c, tr, hct, hc⟩ := stripped_shape raw hraw hraw_ne
  have hx_shape : ∃ j, raw.take i = c :: (tr.take j) := by
    cases i with
    | zero => omega
    | succ j => exact ⟨j, by rw [hct, List.take_succ_cons]⟩
  obtain ⟨j, hxj⟩ := hx_shape
  have hsl : stripLeft (raw.take i) = raw.take i := by
    rw [hxj]
    exact stripLeft_cons_nonspace c _ hc
  have hps : pyStrip (raw.take i) = stripRight (raw.take i) := by
    rw [pyStrip, hsl]
  have hhd : (pyStrip (raw.take i)).head? = some c := by
    rw [hps]
    rw [head_of_pre _ _ (stripRight_pre (raw.take i)) (by rw [← hps]; exact hxe_ne)]
    rw [hxj]
    rfl
  have hcn : c ≠ '#' := by
    intro hch
    apply hhash
    rw [hct, List.head?_cons, hch]
  have h2 : hasSub ['|'] (pyStrip (raw.take i)) = false := by
    apply hasSub_false_of_not_mem
    intro hm
    exact hpx (pyStrip_mem '|' _ hm)
  have h3 : (pyStrip (pyStrip (raw.take i)) == pyStrip (raw.take i)) = true :=
    beq_iff_eq.mpr (pyStrip_idem _)
  have h4 : ((pyStrip (raw.take i)).head? == some '#') = false := by
    apply beq_eq_false_iff_ne.mpr
    rw [hhd]
    intro hcon
    exact hcn (Option.some.injEq _ _ ▸ hcon ▸ rfl)
  unfold wfEmail
  rw [hat, h2, h3, h4]
  rfl

theorem parse_some_wf (line : Str) (r : Account)
    (h : parse_account_line line = some r) : wfEmail r.email = true := by
  unfold parse_account_line at h
  by_cases h0 : pyStrip line = []
  · rw [if_pos h0] at h; cases h
  rw [if_neg h0] at h
  by_cases h1 : (pyStrip line).head? = some '#'
  · rw [if_pos h1] at h; cases h
  rw [if_neg h1] at h
  have hrawidem : pyStrip (pyStrip line) = pyStrip line := pyStrip_idem line
  by_cases h2 : hasSub ['|'] (pyStrip line) = true
  · rw [if_pos h2] at h
    cases hsub : subAt ['|'] (pyStrip line) with
    | none =>
      rw [show hasSub ['|'] (pyStrip line) = (subAt ['|'] (pyStrip line)).isSome from rfl,
        hsub] at h2
      cases h2
    | some i =>
      have hsplit : pySplit ['|'] 3 (pyStrip line) =
          (pyStrip line).take i :: pySplit ['|'] 2 ((pyStrip line).drop (i + 1)) := by
        simp [pySplit, hsub]
      rw [hsplit] at h
      simp only [List.map_cons, List.length_cons, List.getD_cons_zero] at h
      have h3 : ¬ ((pySplit ['|'] 2 ((pyStrip line).drop (i + 1))).map pyStrip).length + 1
          < 2 := by
        have hpos : 0 < ((pySplit ['|'] 2 ((pyStrip line).drop (i + 1))).map pyStrip).length :=
          List.length_pos.mpr
            (fun hnil => pySplit_ne_nil _ _ _ (List.map_eq_nil_iff.mp hnil))
        omega
      rw [if_neg h3] at h
      by_cases h4 : hasSub ['@'] (pyStrip ((pyStrip line).take i)) = true
      · rw [if_pos h4] at h
        injection h with h5
        rw [← h5]
        exact wf_of_part0 (pyStrip line) hrawidem h1 i
          (subAt_char_take '|' (pyStrip line) i hsub) h4
      · rw [if_neg h4] at h; cases h
  · rw [if_neg h2] at h
    by_cases h2d : hasSub dash4 (pyStrip line) = true
    · rw [if_pos h2d] at h
      cases hsub : subAt dash4 (pyStrip line) with
      | none =>
        rw [show hasSub dash4 (pyStrip line) = (subAt dash4 (pyStrip line)).isSome from rfl,
          hsub] at h2d
        cases h2d
      | some i =>
        have hsplit : pySplit dash4 3 (pyStrip line) =
            (pyStrip line).take i ::
              pySplit dash4 2 ((pyStrip line).drop (i + dash4.length)) := by
          simp [pySplit, hsub]
        rw [hsplit] at h
        simp only [List.map_cons, List.length_cons, List.getD_cons_zero] at h
        have h3 : ¬ ((pySplit dash4 2 ((pyStrip line).drop (i + dash4.length))).map
            pyStrip).length + 1 < 2 := by
          have hpos : 0 < ((pySplit dash4 2 ((pyStrip line).drop
              (i + dash4.length))).map pyStrip).length :=
            List.length_pos.mpr
              (fun hnil => pySplit_ne_nil _ _ _ (List.map_eq_nil_iff.mp hnil))
          omega
        rw [if_neg h3] at h
        by_cases h4 : hasSub ['@'] (pyStrip ((pyStrip line).take i)) = true
        · rw [if_pos h4] at h
          injection h with h5
          rw [← h5]
          have hnp : '|' ∉ (pyStrip line).take i := by
            intro hm
            have : '|' ∈ pyStrip line := mem_take_of '|' _ i hm
            rw [(hasSub_char_iff '|' (pyStrip line)).mpr this] at h2
            exact h2 rfl
          exact wf_of_part0 (pyStrip line) hrawidem h1 i hnp h4
        · rw [if_neg h4] at h; cases h
    · rw [if_neg h2d] at h; cases h

theorem parse_fmt_email (e : Str) (hwf : wfEmail e = true) (p s t : Str) :
    ∃ r, parse_account_line (format_account_line e p s t) = some r ∧ r.email = e := by
  simp only [wfEmail, Bool.and_eq_true, Bool.not_eq_true'] at hwf
  obtain ⟨⟨⟨hat, hnp⟩, hse⟩, hhd⟩ := hwf
  have he : pyStrip e = e := eq_of_beq hse
  have hep : '|' ∉ e := by
    intro hm
    rw [(hasSub_char_iff '|' e).mpr hm] at hnp
    cases hnp
  have hhash : ¬ e.head? = some '#' := beq_eq_false_iff_ne.mp hhd
  obtain ⟨c, r0, hcr, hc⟩ := email_shape e he hat
  obtain ⟨dch, q, hdq, hd⟩ := safe_password_shape p
  have hF : format_account_line e p s t =
      (e ++ [' ', '|']) ++ ' ' :: (pyOrS (pyStrip (pyOrS p nA)) nA ++
        (' ' :: '|' :: ' ' :: pyStrip s ++
          (' ' :: '|' :: ' ' ::
            (if t = [] then [] else normalize_time_str t) ++ ['\n']))) := by
    simp [format_account_line, he, List.append_assoc]
  have hZ_ne : stripRight (' ' :: (pyOrS (pyStrip (pyOrS p nA)) nA ++
      (' ' :: '|' :: ' ' :: pyStrip s ++
        (' ' :: '|' :: ' ' ::
          (if t = [] then [] else normalize_time_str t) ++ ['\n'])))) ≠ [] := by
    intro hnil
    have hall := (stripRight_eq_nil_iff _).mp hnil
    have hdm : dch ∈ ' ' :: (pyOrS (pyStrip (pyOrS p nA)) nA ++
        (' ' :: '|' :: ' ' :: pyStrip s ++
          (' ' :: '|' :: ' ' ::
            (if t = [] then [] else normalize_time_str t) ++ ['\n']))) := by
      apply List.mem_cons_of_mem
      apply List.mem_append_left
      rw [hdq]
      exact List.mem_cons_self dch q
    rw [hall dch hdm] at hd
    cases hd
  have hslF : stripLeft (format_account_line e p s t) = format_account_line e p s t := by
    have hcons : format_account_line e p s t = c :: (r0 ++ ' ' :: '|' :: ' ' ::
        pyOrS (pyStrip (pyOrS p nA)) nA ++ ' ' :: '|' :: ' ' :: pyStrip s ++
        ' ' :: '|' :: ' ' :: (if t = [] then [] else normalize_time_str t) ++ ['\n']) := by
      rw [format_account_line, he, hcr]
      rfl
    rw [hcons]
    exact stripLeft_cons_nonspace c _ hc
  have hraw : pyStrip (format_account_line e p s t) =
      (e ++ [' ', '|']) ++ stripRight (' ' :: (pyOrS (pyStrip (pyOrS p nA)) nA ++
        (' ' :: '|' :: ' ' :: pyStrip s ++
          (' ' :: '|' :: ' ' ::
            (if t = [] then [] else normalize_time_str t) ++ ['\n'])))) := by
    rw [pyStrip, hslF, hF, stripRight_append_split, if_neg hZ_ne]
  set Z := stripRight (' ' :: (pyOrS (pyStrip (pyOrS p nA)) nA ++
      (' ' :: '|' :: ' ' :: pyStrip s ++
        (' ' :: '|' :: ' ' ::
          (if t = [] then [] else normalize_time_str t) ++ ['\n'])))) with hZdef
  have hne2 : (e ++ [' ', '|']) ++ Z ≠ [] := by
    rw [hcr]
    simp
  have hhead2 : ¬ ((e ++ [' ', '|']) ++ Z).head? = some '#' := by
    rw [hcr]
    simp only [List.cons_append, List.head?_cons]
    intro hcon
    apply hhash
    rw [hcr, List.head?_cons]
    exact hcon
  have hpipe2 : hasSub ['|'] ((e ++ [' ', '|']) ++ Z) = true := by
    rw [hasSub_char_iff]
    apply List.mem_append_left
    apply List.mem_append_right
    simp
  have hassoc : (e ++ [' ', '|']) ++ Z = (e ++ [' ']) ++ '|' :: Z := by
    simp [List.append_assoc]
  have hsplit2 : (pySplit ['|'] 3 ((e ++ [' ', '|']) ++ Z)).map pyStrip =
      e :: (pySplit ['|'] 2 Z).map pyStrip := by
    rw [hassoc, split_char_step '|' (e ++ [' ']) Z (by simp [hep]) 2]
    simp only [List.map_cons]
    rw [pyStrip_append_space e, he]
  have hrest_ne : (pySplit ['|'] 2 Z).map pyStrip ≠ [] := by
    intro hnil
    exact pySplit_ne_nil ['|'] 2 Z (List.map_eq_nil_iff.mp hnil)
  exact parse_eval_pipe_email (format_account_line e p s t) _ hraw hne2 hhead2 hpipe2
    e _ hsplit2 hrest_ne hat

theorem resolvesTo_fmt (e : Str) (hwf : wfEmail e = true) (p s t f : Str) :
    resolvesTo f (format_account_line e p s t) = (e == f) := by
  obtain ⟨r, hr, hre⟩ := parse_fmt_email e hwf p s t
  unfold resolvesTo
  rw [hr]
  show (r.email == f) = (e == f)
  rw [hre]

theorem resolvesTo_of_parse_none (f line : Str) (h : parse_account_line line = none) :
    resolvesTo f line = false := by
  unfold resolvesTo
  rw [h]

theorem resolvesTo_of_parse_some (f line : Str) (r : Account)
    (h : parse_account_line line = some r) : resolvesTo f line = (r.email == f) := by
  unfold resolvesTo
  rw [h]

theorem upsert_cons_none (e : Str) (p : Option Str) (s d line : Str) (rest : List Str)
    (hparse : parse_account_line line = none) :
    upsertLines e p s d (line :: rest) =
      (line :: (upsertLines e p s d rest).1, (upsertLines e p s d rest).2) := by
  simp only [upsertLines, hparse]

theorem upsert_cons_match (e : Str) (p : Option Str) (s d line : Str) (rest : List Str)
    (r : Account) (hparse : parse_account_line line = some r) (hre : r.email = e) :
    upsertLines e p s d (line :: rest) =
      (format_account_line e (pyOrOpt p (pyOrS r.password nA)) s d ::
        (upsertLines e p s d rest).1, true) := by
  simp only [upsertLines, hparse, if_pos hre]

theorem upsert_cons_other (e : Str) (p : Option Str) (s d line : Str) (rest : List Str)
    (r : Account) (hparse : parse_account_line line = some r) (hre : ¬ r.email = e) :
    upsertLines e p s d (line :: rest) =
      (format_account_line r.email r.password r.status r.time ::
        (upsertLines e p s d rest).1, (upsertLines e p s d rest).2) := by
  simp only [upsertLines, hparse, if_neg hre]

theorem upsert_countP (e : Str) (hwf : wfEmail e = true) (p : Option Str) (s d : Str) :
    ∀ lines f, countFor f (upsertLines e p s d lines).1 = countFor f lines := by
  intro lines
  induction lines with
  | nil => intro f; rfl
  | cons line rest ih =>
    intro f
    cases hparse : parse_account_line line with
    | none =>
      rw [upsert_cons_none e p s d line rest hparse]
      simp only [countFor, List.countP_cons]
      rw [show List.countP (resolvesTo f) (upsertLines e p s d rest).1 =
        countFor f (upsertLines e p s d rest).1 from rfl, ih f]
      rfl
    | some r =>
      by_cases hre : r.email = e
      · rw [upsert_cons_match e p s d line rest r hparse hre]
        simp only [countFor, List.countP_cons]
        rw [show List.countP (resolvesTo f) (upsertLines e p s d rest).1 =
          countFor f (upsertLines e p s d rest).1 from rfl, ih f]
        rw [resolvesTo_fmt e hwf _ s d f, resolvesTo_of_parse_some f line r hparse, hre]
        rfl
      · rw [upsert_cons_other e p s d line rest r hparse hre]
        simp only [countFor, List.countP_cons]
        rw [show List.countP (resolvesTo f) (upsertLines e p s d rest).1 =
          countFor f (upsertLines e p s d rest).1 from rfl, ih f]
        rw [resolvesTo_fmt r.email (parse_some_wf line r hparse) _ _ _ f,
          resolvesTo_of_parse_some f line r hparse]
        rfl

theorem upsert_found (e : Str) (p : Option Str) (s d : Str) :
    ∀ lines, (upsertLines e p s d lines).2 = lines.any (resolvesTo e) := by
  intro lines
  induction lines with
  | nil => rfl
  | cons line rest ih =>
    cases hparse : parse_account_line line with
    | none =>
      rw [upsert_cons_none e p s d line rest hparse]
      simp only [List.any_cons]
      rw [resolvesTo_of_parse_none e line hparse, ih]
      rfl
    | some r =>
      by_cases hre : r.email = e
      · rw [upsert_cons_match e p s d line rest r hparse hre]
        simp only [List.any_cons]
        rw [resolvesTo_of_parse_some e line r hparse, hre]
        simp
      · rw [upsert_cons_other e p s d line rest r hparse hre]
        simp only [List.any_cons]
        rw [resolvesTo_of_parse_some e line r hparse, ih,
          beq_eq_false_iff_ne.mpr hre]
        rfl

theorem save_count (e : Str) (hwf : wfEmail e = true) (p : Option Str) (s d : Str)
    (lines : List Str) (f : Str) :
    countFor f (save_to_txt lines e p s d) =
      if e = f then max (countFor f lines) 1 else countFor f lines := by
  simp only [save_to_txt]
  cases hfound : (upsertLines e p s d lines).2 with
  | true =>
    rw [if_pos rfl]
    rw [upsert_countP e hwf p s d lines f]
    have hany : lines.any (resolvesTo e) = true := by
      rw [← upsert_found e p s d lines]
      exact hfound
    have hpos : 1 ≤ countFor e lines := by
      rcases List.any_eq_true.mp hany with ⟨x, hx, hres⟩
      exact List.countP_pos_iff.mpr ⟨x, hx, hres⟩
    by_cases hef : e = f
    · rw [if_pos hef]
      subst hef
      exact (max_eq_left hpos).symm
    · rw [if_neg hef]
  | false =>
    rw [if_neg (by simp)]
    simp only [countFor, List.countP_append]
    rw [show List.countP (resolvesTo f) (upsertLines e p s d lines).1 =
      countFor f (upsertLines e p s d lines).1 from rfl, upsert_countP e hwf p s d lines f]
    have hzero : lines.any (resolvesTo e) = false := by
      rw [← upsert_found e p s d lines]
      exact hfound
    rw [List.countP_cons, List.countP_nil]
    rw [resolvesTo_fmt e hwf _ s d f]
    by_cases hef : e = f
    · rw [if_pos hef]
      subst hef
      have hz : List.countP (resolvesTo e) lines = 0 := by
        cases hc : List.countP (resolvesTo e) lines with
        | zero => rfl
        | succ n =>
          rcases List.countP_pos_iff.mp (by rw [hc]; omega) with ⟨x, hx, hres⟩
          rw [List.any_eq_true.mpr ⟨x, hx, hres⟩] at hzero
          cases hzero
      rw [show countFor e lines = List.countP (resolvesTo e) lines from rfl, hz]
      simp
    · rw [if_neg hef, beq_eq_false_iff_ne.mpr hef]
      simp only [if_false, Bool.false_eq_true]
      rw [show countFor f lines = List.countP (resolvesTo f) lines from rfl]
      simp

theorem upsert_mem_fmt (e : Str) (p : Option Str) (s d : Str) :
    ∀ lines l, l ∈ (upsertLines e p s d lines).1 → resolvesTo e l = true →
      ∃ pw, l = format_account_line e pw s d := by
  intro lines
  induction lines with
  | nil => intro l hl; cases hl
  | cons line rest ih =>
    intro l hl hres
    cases hparse : parse_account_line line with
    | none =>
      rw [upsert_cons_none e p s d line rest hparse] at hl
      rcases List.mem_cons.mp hl with rfl | hl2
      · rw [resolvesTo_of_parse_none e l hparse] at hres
        cases hres
      · exact ih l hl2 hres
    | some r =>
      by_cases hre : r.email = e
      · rw [upsert_cons_match e p s d line rest r hparse hre] at hl
        rcases List.mem_cons.mp hl with rfl | hl2
        · exact ⟨pyOrOpt p (pyOrS r.password nA), rfl⟩
        · exact ih l hl2 hres
      · rw [upsert_cons_other e p s d line rest r hparse hre] at hl
        rcases List.mem_cons.mp hl with rfl | hl2
        · rw [resolvesTo_fmt r.email (parse_some_wf line r hparse) _ _ _ e,
            beq_eq_false_iff_ne.mpr hre] at hres
          cases hres
        · exact ih l hl2 hres

theorem save_mem_fmt (e : Str) (p : Option Str) (s d : Str)
    (lines : List Str) : ∀ l ∈ save_to_txt lines e p s d, resolvesTo e l = true →
      ∃ pw, l = format_account_line e pw s d := by
  intro l hl hres
  simp only [save_to_txt] at hl
  cases hfound : (upsertLines e p s d lines).2 with
  | true =>
    rw [hfound, if_pos rfl] at hl
    exact upsert_mem_fmt e p s d lines l hl hres
  | false =>
    rw [hfound, if_neg (by simp)] at hl
    rcases List.mem_append.mp hl with hl2 | hl2
    · exact upsert_mem_fmt e p s d lines l hl2 hres
    · rcases List.mem_singleton.mp hl2 with rfl
      exact ⟨pyOrOpt p nA, rfl⟩

/-- Claim C7: the ledger line parsers (both the one nested in the upsert
and the one nested in GET /api/accounts) yield equivalent structured
records for a pipe-format line and the corresponding legacy dash-format
line: in general, for well-formed fields (stripped, free of the pipe
character, dash-safe against the four-dash separator, with a status and
time present and an email containing an @ sign and not starting the
comment marker), email----password----time----status parses to the same
record as email | password | status | time; in particular the claim's two
concrete example lines both parse to the record with email a@x.com,
password p1, status registered and the compact time 20260106_094500
normalized to 2026-01-06 09:45:00. -/
theorem parse_dual_format_equiv (e p s t : Str)
    (he : pyStrip e = e) (hp : pyStrip p = p) (hs : pyStrip s = s) (ht : pyStrip t = t)
    (hep : '|' ∉ e) (hpp : '|' ∉ p) (hsp : '|' ∉ s) (htp : '|' ∉ t)
    (hde : dashSafe e = true) (hdp : dashSafe p = true) (hdt : dashSafe t = true)
    (hsne : s ≠ []) (htne : t ≠ [])
    (hat : hasSub ['@'] e = true) (hhash : ¬ e.head? = some '#') :
    parse_account_line (mkDashLine e p s t) = parse_account_line (mkPipeLine e p s t) ∧
      parse_account_line_server (mkDashLine e p s t) =
        parse_account_line_server (mkPipeLine e p s t) ∧
      parse_account_line (mkPipeLine e p s t) =
        some ⟨e, pyOrS p nA, s, normalize_time_str t⟩ ∧
      parse_account_line "a@x.com | p1 | registered | 2026-01-06 09:45:00".data =
        some ⟨"a@x.com".data, "p1".data, "registered".data, "2026-01-06 09:45:00".data⟩ ∧
      parse_account_line "a@x.com----p1----20260106_094500----registered".data =
        some ⟨"a@x.com".data, "p1".data, "registered".data, "2026-01-06 09:45:00".data⟩ ∧
      parse_account_line_server "a@x.com | p1 | registered | 2026-01-06 09:45:00".data =
        some ⟨"a@x.com".data, "p1".data, "registered".data, "2026-01-06 09:45:00".data⟩ ∧
      parse_account_line_server "a@x.com----p1----20260106_094500----registered".data =
        some ⟨"a@x.com".data, "p1".data, "registered".data, "2026-01-06 09:45:00".data⟩ := by
  obtain ⟨hP1, hP2⟩ := parse_mkPipe e p s t he hp hs ht hep hpp hsp htne hat hhash
  obtain ⟨hD1, hD2⟩ :=
    parse_mkDash e p s t he hp hs ht hep hpp hsp htp hde hdp hdt hsne hat hhash
  exact ⟨hD1.trans hP1.symm, hD2.trans hP2.symm, hP1,
    by decide, by decide, by decide, by decide⟩

/-- Witness for claim C7 at concrete well-formed fields. -/
theorem parse_dual_format_equiv_witness :
    parse_account_line (mkDashLine "b@y.org".data "pw1".data "ok".data
        "2030-12-31 23:59:59".data) =
      parse_account_line (mkPipeLine "b@y.org".data "pw1".data "ok".data
        "2030-12-31 23:59:59".data) :=
  (parse_dual_format_equiv "b@y.org".data "pw1".data "ok".data "2030-12-31 23:59:59".data
    (by decide) (by decide) (by decide) (by decide) (by decide) (by decide) (by decide)
    (by decide) (by decide) (by decide) (by decide) (by decide) (by decide) (by decide)
    (by decide)).1

/-- Claim C8: the counterexample.  On a pipe line with an empty password
column, the parser of GET /api/accounts keeps the empty string — it has no
N/A fallback — while the upsert's parser yields N/A, so it is not the case
that both parsers fall back to N/A. -/
theorem server_parse_empty_password_kept :
    (parse_account_line_server "a@x.com |  | registered | 2026-01-06 09:45:00".data).map
        Account.password = some [] ∧
      (parse_account_line "a@x.com |  | registered | 2026-01-06 09:45:00".data).map
        Account.password = some nA ∧
      ¬ (([] : Str) = nA) := by
  decide

/-- Claim C8 as amended: the parser used by the ledger upsert falls back
to N/A whenever the password column is empty (its parsed records never
carry an empty password), but the parser used by GET /api/accounts has no
such fallback and returns the empty password column verbatim. -/
theorem password_fallback_parsers (e s t : Str)
    (he : pyStrip e = e) (hs : pyStrip s = s) (ht : pyStrip t = t)
    (hep : '|' ∉ e) (hsp : '|' ∉ s) (htne : t ≠ [])
    (hat : hasSub ['@'] e = true) (hhash : ¬ e.head? = some '#') :
    (∀ line r, parse_account_line line = some r → r.password ≠ []) ∧
      parse_account_line (mkPipeLine e [] s t) = some ⟨e, nA, s, normalize_time_str t⟩ ∧
      parse_account_line_server (mkPipeLine e [] s t) =
        some ⟨e, [], s, normalize_time_str t⟩ := by
  have hmk := parse_mkPipe e [] s t he rfl hs ht hep (by simp) hsp htne hat hhash
  refine ⟨fun line r h => parse_password_ne_nil line r h, ?_, hmk.2⟩
  have h1 := hmk.1
  rw [show pyOrS [] nA = nA from rfl] at h1
  exact h1

/-- Witness for claim C8 as amended, at a concrete email, status and time. -/
theorem password_fallback_parsers_witness :
    (∀ line r, parse_account_line line = some r → r.password ≠ []) ∧
      parse_account_line (mkPipeLine "a@x.com".data [] "registered".data
          "2026-01-06 09:45:00".data) =
        some ⟨"a@x.com".data, nA, "registered".data,
          normalize_time_str "2026-01-06 09:45:00".data⟩ ∧
      parse_account_line_server (mkPipeLine "a@x.com".data [] "registered".data
          "2026-01-06 09:45:00".data) =
        some ⟨"a@x.com".data, [], "registered".data,
          normalize_time_str "2026-01-06 09:45:00".data⟩ :=
  password_fallback_parsers "a@x.com".data "registered".data "2026-01-06 09:45:00".data
    (by decide) (by decide) (by decide) (by decide) (by decide) (by decide) (by decide)
    (by decide)

/-- Claim C2: the code_bug evidence.  In the login flow, when the wait for
a password input times out and every earlier step succeeds, login returns
false instead of letting the re-raised exception propagate: the inner
handler does re-raise, but the outer catch-all handler of login swallows
the exception (its own inline comment says the raise is meant to terminate
the run), so no exception ever reaches login's caller. -/
theorem login_password_timeout_returns_false :
    login loginEnvNoPasswordField = PyOutcome.ret false ∧
      ∀ msg, login loginEnvNoPasswordField ≠ PyOutcome.raised msg := by
  refine ⟨rfl, fun msg h => ?_⟩
  rw [show login loginEnvNoPasswordField = PyOutcome.ret false from rfl] at h
  exact PyOutcome.noConfusion h

/-- Claim C3: the code_bug evidence.  With age bounds (18, 65) and current
date 2026-10-12, the fallback path of generate_random_birthday can draw
birth_year = 2008 (inside its computed year range), birth_month = 12 and
birth_day = 1 (inside the month and day ranges), producing the birthday
2008-12-01, whose implied age relative to the current date is 17 — outside
[MIN_AGE, MAX_AGE], contradicting the function's stated guarantee. -/
theorem birthday_fallback_age_underflow :
    (2026 - MAX_AGE ≤ 2008 ∧ 2008 ≤ 2026 - MIN_AGE) ∧
      (1 ≤ 12 ∧ 12 ≤ 12) ∧
      (1 ≤ 1 ∧ 1 ≤ birthday_max_day 2008 12) ∧
      generate_random_birthday_fallback 2008 12 1 =
        ("2008".data, "12".data, "01".data) ∧
      impliedAge ⟨2026, 10, 12⟩ 2008 12 1 = 17 ∧
      ¬ ((MIN_AGE : Int) ≤ impliedAge ⟨2026, 10, 12⟩ 2008 12 1) := by
  decide

/-- Claim C4: every string returned by generate_random_password for
requested length 12 has length exactly 12 and contains at least one
uppercase letter, one lowercase letter, one digit and one of the special
characters, because positions 0 to 3 are force-overwritten with one
character of each class and the random draw has the requested length. -/
theorem generate_random_password_len12_classes (draw : Str) (up low dig spec : Char)
    (hdraw : draw.length = 12)
    (hup : up ∈ ascii_uppercase) (hlow : low ∈ ascii_lowercase)
    (hdig : dig ∈ string_digits) (hspec : spec ∈ password_specials) :
    (generate_random_password draw up low dig spec).length = 12 ∧
      (∃ c ∈ generate_random_password draw up low dig spec, c ∈ ascii_uppercase) ∧
      (∃ c ∈ generate_random_password draw up low dig spec, c ∈ ascii_lowercase) ∧
      (∃ c ∈ generate_random_password draw up low dig spec, c ∈ string_digits) ∧
      (∃ c ∈ generate_random_password draw up low dig spec, c ∈ password_specials) := by
  refine ⟨?_, ⟨up, ?_, hup⟩, ⟨low, ?_, hlow⟩, ⟨dig, ?_, hdig⟩, ⟨spec, ?_, hspec⟩⟩
  · simp [generate_random_password, hdraw]
  all_goals simp [generate_random_password]

/-- Witness for claim C4 at a concrete draw and class characters. -/
theorem generate_random_password_len12_classes_witness :
    (generate_random_password "abcdefghijkl".data 'X' 'y' '7' '%').length = 12 ∧
      (∃ c ∈ generate_random_password "abcdefghijkl".data 'X' 'y' '7' '%',
        c ∈ ascii_uppercase) ∧
      (∃ c ∈ generate_random_password "abcdefghijkl".data 'X' 'y' '7' '%',
        c ∈ ascii_lowercase) ∧
      (∃ c ∈ generate_random_password "abcdefghijkl".data 'X' 'y' '7' '%',
        c ∈ string_digits) ∧
      (∃ c ∈ generate_random_password "abcdefghijkl".data 'X' 'y' '7' '%',
        c ∈ password_specials) :=
  generate_random_password_len12_classes "abcdefghijkl".data 'X' 'y' '7' '%'
    (by decide) (by decide) (by decide) (by decide) (by decide)

/-- Claim C10: for a requested length n below 4, generate_random_password
returns a string of length exactly 4 — the four forced class characters,
since the draw of length n loses everything to the slice from index 4 —
and the requested length is honored exactly when n is at least 4. -/
theorem generate_random_password_short_length (n : Nat) (draw : Str)
    (up low dig spec : Char) (hdraw : draw.length = n) :
    (n < 4 → (generate_random_password draw up low dig spec).length = 4 ∧
        (generate_random_password draw up low dig spec).length ≠ n) ∧
      (4 ≤ n → (generate_random_password draw up low dig spec).length = n) := by
  have hlen : (generate_random_password draw up low dig spec).length = 4 + (n - 4) := by
    simp [generate_random_password, hdraw]
    omega
  constructor
  · intro h
    constructor
    · omega
    · omega
  · intro h
    omega

/-- Witness for claim C10 at requested length 2. -/
theorem generate_random_password_short_length_witness :
    (generate_random_password "ab".data 'X' 'y' '7' '%').length = 4 ∧
      (generate_random_password "ab".data 'X' 'y' '7' '%').length ≠ 2 :=
  (generate_random_password_short_length 2 "ab".data 'X' 'y' '7' '%' (by decide)).1
    (by decide)

/-- Claim C6: the counterexample.  When reading the ledger file raises an
exception, GET /api/accounts does not respond with HTTP status 200: the
handler returns the JSON error body with status 500. -/
theorem accounts_read_error_not_200 :
    (get_accounts (some (Except.error "disk failure".data))).1 = 500 ∧
      (get_accounts (some (Except.error "disk failure".data))).1 ≠ 200 := by
  decide

/-- Claim C6 as amended: when reading the ledger file raises an exception,
GET /api/accounts responds with HTTP status 500 and a JSON body containing
the error message. -/
theorem accounts_read_error_status500 (msg : Str) :
    get_accounts (some (Except.error msg)) = (500, AccountsBody.err msg) := rfl

/-- Claim C9: after any call to add_log on a buffer holding at most 1000
entries, the buffer holds at most 1000 entries; a push onto a full buffer
of 1000 evicts exactly the oldest entry and appends the new one at the
back (preserving FIFO order), and a push onto a smaller buffer appends
without eviction. -/
theorem add_log_capacity_fifo (logs : List Str) (ts msg : Str)
    (h : logs.length ≤ 1000) :
    (add_log logs ts msg).length ≤ 1000 ∧
      (logs.length = 1000 →
        add_log logs ts msg = logs.drop 1 ++ ['[' :: ts ++ ']' :: ' ' :: msg]) ∧
      (logs.length < 1000 →
        add_log logs ts msg = logs ++ ['[' :: ts ++ ']' :: ' ' :: msg]) := by
  have hlenapp : (logs ++ ['[' :: ts ++ ']' :: ' ' :: msg]).length = logs.length + 1 := by
    simp
  by_cases hfull : logs.length = 1000
  · have hcond : (logs ++ ['[' :: ts ++ ']' :: ' ' :: msg]).length > 1000 := by omega
    have heq : add_log logs ts msg = (logs ++ ['[' :: ts ++ ']' :: ' ' :: msg]).drop 1 := by
      unfold add_log
      rw [if_pos hcond]
    have hdrop : (logs ++ ['[' :: ts ++ ']' :: ' ' :: msg]).drop 1 =
        logs.drop 1 ++ ['[' :: ts ++ ']' :: ' ' :: msg] := by
      rw [List.drop_append_eq_append_drop]
      simp [hfull]
    refine ⟨?_, fun _ => by rw [heq, hdrop], fun hlt => by omega⟩
    rw [heq]
    simp only [List.length_drop]
    omega
  · have hcond : ¬ ((logs ++ ['[' :: ts ++ ']' :: ' ' :: msg]).length > 1000) := by omega
    have heq : add_log logs ts msg = logs ++ ['[' :: ts ++ ']' :: ' ' :: msg] := by
      unfold add_log
      rw [if_neg hcond]
    refine ⟨?_, fun hf => absurd hf hfull, fun _ => heq⟩
    rw [heq]
    omega

/-- Witness for claim C9 at a concrete full buffer of 1000 entries. -/
theorem add_log_capacity_fifo_witness :
    (add_log (List.replicate 1000 "x".data) "09:45:00".data "msg".data).length ≤ 1000 ∧
      ((List.replicate 1000 ("x".data : Str)).length = 1000 →
        add_log (List.replicate 1000 "x".data) "09:45:00".data "msg".data =
          (List.replicate 1000 "x".data).drop 1 ++
            ['[' :: "09:45:00".data ++ ']' :: ' ' :: "msg".data]) ∧
      ((List.replicate 1000 ("x".data : Str)).length < 1000 →
        add_log (List.replicate 1000 "x".data) "09:45:00".data "msg".data =
          List.replicate 1000 "x".data ++ ['[' :: "09:45:00".data ++ ']' :: ' ' :: "msg".data]) :=
  add_log_capacity_fifo (List.replicate 1000 "x".data) "09:45:00".data "msg".data
    (by rw [List.length_replicate])

/-- Claim C5: the counterexample.  With the Faker library unavailable,
generate_billing_info for country US takes the US fallback branch and
yields the state New York, which is not in the claimed four-state set, so
the US route does not always yield a state in that set. -/
theorem us_address_fallback_new_york :
    (generate_billing_info false "US".data "John Smith".data usRandEx jpRandEx).state =
        "New York".data ∧
      ¬ (generate_billing_info false "US".data "John Smith".data usRandEx jpRandEx).state ∈
          ["Delaware".data, "Oregon".data, "Montana".data, "New Hampshire".data] := by
  decide

/-- Claim C5 as amended: generate_billing_info for any case variant of US
routes to the US address generator, which with Faker available always
yields a state among Delaware, Oregon, Montana and New Hampshire (the
Faker-unavailable fallback yields the fixed state New York instead); any
other country code routes to the Japan generator, which on both paths
yields a state in Tokyo or Osaka; and in every returned record the country
field equals the upper-cased input code. -/
theorem billing_info_routing (fakerAvailable : Bool) (country name : Str)
    (us : UsRand) (jp : JpRand)
    (hus : us.stateIdx < 4) (hjp : jp.fallbackIdx < 4) :
    (generate_billing_info fakerAvailable country name us jp).country = pyUpper country ∧
      (pyUpper country = "US".data → fakerAvailable = true →
        (generate_billing_info fakerAvailable country name us jp).state ∈
          ["Delaware".data, "Oregon".data, "Montana".data, "New Hampshire".data]) ∧
      (pyUpper country ≠ "US".data →
        (generate_billing_info fakerAvailable country name us jp).state = "Tokyo".data ∨
          (generate_billing_info fakerAvailable country name us jp).state = "Osaka".data) := by
  refine ⟨by simp [generate_billing_info], fun hc hf => ?_, fun hc => ?_⟩
  · subst hf
    have h4 : us.stateIdx = 0 ∨ us.stateIdx = 1 ∨ us.stateIdx = 2 ∨ us.stateIdx = 3 := by
      omega
    rcases h4 with h | h | h | h <;>
      simp [generate_billing_info, generate_us_address, us_states, hc, h]
  · rcases h4 : fakerAvailable with _ | _
    · have hf4 : jp.fallbackIdx = 0 ∨ jp.fallbackIdx = 1 ∨ jp.fallbackIdx = 2 ∨
          jp.fallbackIdx = 3 := by omega
      rcases hf4 with h | h | h | h <;>
        simp [generate_billing_info, generate_japan_address, japan_fallback_addresses, hc, h]
    · rcases ht : jp.tokyo with _ | _ <;>
        simp [generate_billing_info, generate_japan_address, hc, ht]

/-- Claim C1: for a well-formed email (containing an @ sign, free of the
pipe character, stripped, not starting the comment marker) and a ledger in
which at most one line resolves to any given email, the upsert save_to_txt
preserves that invariant; and calling the upsert twice for the same email
and status leaves exactly one line resolving to that email — the filtered
ledger is exactly one freshly formatted row carrying the second call's
timestamp. -/
theorem save_to_txt_upsert_unique (e : Str) (p p2 : Option Str) (s d d2 : Str)
    (lines : List Str) (hwf : wfEmail e = true)
    (hinv : ∀ f, countFor f lines ≤ 1) :
    (∀ f, countFor f (save_to_txt lines e p s d) ≤ 1) ∧
      ∃ pw, (save_to_txt (save_to_txt lines e p s d) e p2 s d2).filter (resolvesTo e) =
        [format_account_line e pw s d2] := by
  have hpart1 : ∀ f, countFor f (save_to_txt lines e p s d) ≤ 1 := by
    intro f
    rw [save_count e hwf p s d lines f]
    by_cases hef : e = f
    · rw [if_pos hef]
      exact max_le (hinv f) (le_refl 1)
    · rw [if_neg hef]
      exact hinv f
  refine ⟨hpart1, ?_⟩
  have hc1 : countFor e (save_to_txt lines e p s d) = 1 := by
    rw [save_count e hwf p s d lines e, if_pos rfl]
    exact max_eq_right (hinv e)
  have hc2 : countFor e (save_to_txt (save_to_txt lines e p s d) e p2 s d2) = 1 := by
    rw [save_count e hwf p2 s d2 (save_to_txt lines e p s d) e, if_pos rfl, hc1]
    exact max_self 1
  have hlen : ((save_to_txt (save_to_txt lines e p s d) e p2 s d2).filter
      (resolvesTo e)).length = 1 := by
    rw [← List.countP_eq_length_filter]
    exact hc2
  obtain ⟨x, hx⟩ := List.length_eq_one.mp hlen
  have hxmem : x ∈ (save_to_txt (save_to_txt lines e p s d) e p2 s d2).filter
      (resolvesTo e) := by
    rw [hx]
    exact List.mem_singleton.mpr rfl
  have hxin : x ∈ save_to_txt (save_to_txt lines e p s d) e p2 s d2 :=
    List.mem_of_mem_filter hxmem
  have hxres : resolvesTo e x = true := List.of_mem_filter hxmem
  obtain ⟨pw, hpw⟩ :=
    save_mem_fmt e p2 s d2 (save_to_txt lines e p s d) x hxin hxres
  refine ⟨pw, ?_⟩
  rw [hx, hpw]

/-- Witness for claim C1 at a concrete email, password and pair of
timestamps, starting from the empty ledger. -/
theorem save_to_txt_upsert_unique_witness :
    (∀ f, countFor f (save_to_txt [] "a@x.com".data (some "p1".data) "registered".data
        "2026-01-06 09:45:00".data) ≤ 1) ∧
      ∃ pw, ((save_to_txt (save_to_txt [] "a@x.com".data (some "p1".data)
          "registered".data "2026-01-06 09:45:00".data) "a@x.com".data (some "p1".data)
          "registered".data "2026-01-07 10:00:00".data).filter
            (resolvesTo "a@x.com".data)) =
        [format_account_line "a@x.com".data pw "registered".data
          "2026-01-07 10:00:00".data] :=
  save_to_txt_upsert_unique "a@x.com".data (some "p1".data) (some "p1".data)
    "registered".data "2026-01-06 09:45:00".data "2026-01-07 10:00:00".data []
    (by decide) (fun f => by simp [countFor])

/-- Witness for claim C5 as amended, at country us (lower case), Faker
available, with concrete random draws. -/
theorem billing_info_routing_witness :
    (generate_billing_info true "us".data "John Smith".data usRandEx jpRandEx).country =
        pyUpper "us".data ∧
      (pyUpper "us".data = "US".data → true = true →
        (generate_billing_info true "us".data "John Smith".data usRandEx jpRandEx).state ∈
          ["Delaware".data, "Oregon".data, "Montana".data, "New Hampshire".data]) ∧
      (pyUpper "us".data ≠ "US".data →
        (generate_billing_info true "us".data "John Smith".data usRandEx jpRandEx).state =
            "Tokyo".data ∨
          (generate_billing_info true "us".data "John Smith".data usRandEx jpRandEx).state =
            "Osaka".data) :=
  billing_info_routing true "us".data "John Smith".data usRandEx jpRandEx
    (by decide) (by decide)

end AutoGpt
